import Mathlib

/-! # SigV4 signing middleware (`demo.go`)

A shallow embedding of the request-signing middleware of
`traefik-middleware-sigv4` and the properties of its signing path.

Modelling conventions.

* A Go `string` is a Lean `String`; a Go `[]byte` is a `List UInt8`.  The
  conversion `[]byte(s)` is the UTF-8 encoding `bytesOf s`.
* 32-bit words of SHA-256 are natural numbers reduced modulo `2 ^ 32`.
* `crypto/sha256`, `crypto/hmac`, `encoding/hex`, `fmt.Sprintf`,
  `time.Time.Format`, `io.ReadAll` and `http.Header.Set` belong to the Go
  standard library; the parts of them that `demo.go` uses are written out
  below so that every definition can be evaluated.
* The wall clock read by `time.Now()` is an explicit argument of `ServeHTTP`.
* `http.Header` is a finite map from keys to value lists; it is modelled as a
  function `String → Option (List String)`.
-/

namespace SigV4

/-! ## Bytes and hexadecimal text -/

/-- The conversion `[]byte(s)`: the UTF-8 bytes of a string. -/
def bytesOf (s : String) : List UInt8 :=
  s.data.flatMap String.utf8EncodeChar

/-- The table `hextable` of `encoding/hex`. -/
def hextable : List Char :=
  "0123456789abcdef".data

/-- The two characters `hextable[v>>4]`, `hextable[v&0x0f]` of one byte. -/
def hexByte (v : UInt8) : List Char :=
  [hextable.getD (v.toNat >>> 4) '0', hextable.getD (v.toNat &&& 0x0f) '0']

/-- The function `hex.EncodeToString`. -/
def hexEncodeToString (src : List UInt8) : String :=
  String.mk (src.flatMap hexByte)

/-! ## SHA-256 (`crypto/sha256`) -/

namespace Sha256

/-- The round constants `_K`. -/
def K : List Nat :=
  [0x428a2f98, 0x71374491, 0xb5c0fbcf, 0xe9b5dba5, 0x3956c25b, 0x59f111f1, 0x923f82a4, 0xab1c5ed5] ++
  [0xd807aa98, 0x12835b01, 0x243185be, 0x550c7dc3, 0x72be5d74, 0x80deb1fe, 0x9bdc06a7, 0xc19bf174] ++
  [0xe49b69c1, 0xefbe4786, 0x0fc19dc6, 0x240ca1cc, 0x2de92c6f, 0x4a7484aa, 0x5cb0a9dc, 0x76f988da] ++
  [0x983e5152, 0xa831c66d, 0xb00327c8, 0xbf597fc7, 0xc6e00bf3, 0xd5a79147, 0x06ca6351, 0x14292967] ++
  [0x27b70a85, 0x2e1b2138, 0x4d2c6dfc, 0x53380d13, 0x650a7354, 0x766a0abb, 0x81c2c92e, 0x92722c85] ++
  [0xa2bfe8a1, 0xa81a664b, 0xc24b8b70, 0xc76c51a3, 0xd192e819, 0xd6990624, 0xf40e3585, 0x106aa070] ++
  [0x19a4c116, 0x1e376c08, 0x2748774c, 0x34b0bcb5, 0x391c0cb3, 0x4ed8aa4a, 0x5b9cca4f, 0x682e6ff3] ++
  [0x748f82ee, 0x78a5636f, 0x84c87814, 0x8cc70208, 0x90befffa, 0xa4506ceb, 0xbef9a3f7, 0xc67178f2]

/-- The eight chaining words of a digest. -/
structure Digest where
  h0 : Nat
  h1 : Nat
  h2 : Nat
  h3 : Nat
  h4 : Nat
  h5 : Nat
  h6 : Nat
  h7 : Nat
  deriving DecidableEq, Repr

/-- The initial chaining value `init0 .. init7`. -/
def init : Digest :=
  ⟨0x6a09e667, 0xbb67ae85, 0x3c6ef372, 0xa54ff53a, 0x510e527f, 0x9b05688c, 0x1f83d9ab, 0x5be0cd19⟩

/-- Addition of `uint32` values. -/
def add32 (a b : Nat) : Nat := (a + b) % 2 ^ 32

/-- The rotation `bits.RotateLeft32(x, -n)` of a `uint32`. -/
def rotr (x n : Nat) : Nat := ((x >>> n) ||| (x <<< (32 - n))) % 2 ^ 32

/-- The complement `^x` of a `uint32`. -/
def not32 (x : Nat) : Nat := x ^^^ 0xffffffff

/-- A big-endian `uint32` read from four bytes. -/
def beWord (b0 b1 b2 b3 : UInt8) : Nat :=
  (b0.toNat <<< 24) ||| (b1.toNat <<< 16) ||| (b2.toNat <<< 8) ||| b3.toNat

/-- The sixteen words `w[0..15]` of one 64-byte block. -/
def blockWords : List UInt8 → List Nat
  | b0 :: b1 :: b2 :: b3 :: rest => beWord b0 b1 b2 b3 :: blockWords rest
  | _ => []

/-- The word `w[i]` for `i ≥ 16`, computed from the window `w[i-16 .. i-1]`. -/
def nextWord (win : List Nat) : Nat :=
  let v1 := win.getD 14 0
  let t1 := rotr v1 17 ^^^ rotr v1 19 ^^^ (v1 >>> 10)
  let v2 := win.getD 1 0
  let t2 := rotr v2 7 ^^^ rotr v2 18 ^^^ (v2 >>> 3)
  add32 (add32 (add32 t1 (win.getD 9 0)) t2) (win.getD 0 0)

/-- The first `n` words of the message schedule that starts with window `win`. -/
def schedule : Nat → List Nat → List Nat
  | 0, _ => []
  | n + 1, win => win.headD 0 :: schedule n (win.tail ++ [nextWord win])

/-- One round of the compression loop, with round constant `k` and word `w`. -/
def round (s : Digest) (kw : Nat × Nat) : Digest :=
  let t1 := add32 (add32 (add32 (add32 s.h7
      (rotr s.h4 6 ^^^ rotr s.h4 11 ^^^ rotr s.h4 25))
      ((s.h4 &&& s.h5) ^^^ (not32 s.h4 &&& s.h6))) kw.1) kw.2
  let t2 := add32 (rotr s.h0 2 ^^^ rotr s.h0 13 ^^^ rotr s.h0 22)
      ((s.h0 &&& s.h1) ^^^ (s.h0 &&& s.h2) ^^^ (s.h1 &&& s.h2))
  ⟨add32 t1 t2, s.h0, s.h1, s.h2, add32 s.h3 t1, s.h4, s.h5, s.h6⟩

/-- The function `blockGeneric` on one 64-byte block. -/
def block (d : Digest) (p : List UInt8) : Digest :=
  let w := schedule 64 (blockWords p)
  let s := (K.zip w).foldl round d
  ⟨add32 d.h0 s.h0, add32 d.h1 s.h1, add32 d.h2 s.h2, add32 d.h3 s.h3,
   add32 d.h4 s.h4, add32 d.h5 s.h5, add32 d.h6 s.h6, add32 d.h7 s.h7⟩

/-- The padding appended by `checkSum` to a message of `len` bytes: `0x80`,
zeros up to 56 modulo 64, and the bit length as a big-endian `uint64`. -/
def padding (len : Nat) : List UInt8 :=
  let t := if len % 64 < 56 then 56 - len % 64 else 64 + 56 - len % 64
  let bits := (len <<< 3) % 2 ^ 64
  (0x80 : UInt8) :: List.replicate (t - 1) (0 : UInt8) ++
    [UInt8.ofNat (bits >>> 56), UInt8.ofNat (bits >>> 48), UInt8.ofNat (bits >>> 40),
     UInt8.ofNat (bits >>> 32), UInt8.ofNat (bits >>> 24), UInt8.ofNat (bits >>> 16),
     UInt8.ofNat (bits >>> 8), UInt8.ofNat bits]

/-- The compression of `n` consecutive 64-byte blocks of `p`. -/
def blocks : Nat → Digest → List UInt8 → Digest
  | 0, d, _ => d
  | n + 1, d, p => blocks n (block d (p.take 64)) (p.drop 64)

/-- The four big-endian bytes of a `uint32`. -/
def wordBytes (w : Nat) : List UInt8 :=
  [UInt8.ofNat (w >>> 24), UInt8.ofNat (w >>> 16), UInt8.ofNat (w >>> 8), UInt8.ofNat w]

/-- The function `sha256.Sum256`. -/
def Sum256 (data : List UInt8) : List UInt8 :=
  let p := data ++ padding data.length
  let d := blocks (p.length / 64) init p
  wordBytes d.h0 ++ wordBytes d.h1 ++ wordBytes d.h2 ++ wordBytes d.h3 ++
    wordBytes d.h4 ++ wordBytes d.h5 ++ wordBytes d.h6 ++ wordBytes d.h7

end Sha256

/-! ## HMAC (`crypto/hmac` over SHA-256) -/

/-- The block size of SHA-256 in bytes. -/
def blockSize : Nat := 64

/-- The key block of `hmac.New`: a key longer than the block size is hashed
first, and the result is filled with zeros to the block size. -/
def hmacKeyBlock (key : List UInt8) : List UInt8 :=
  let k := if key.length > blockSize then Sha256.Sum256 key else key
  k ++ List.replicate (blockSize - k.length) (0 : UInt8)

/-- The HMAC-SHA256 of `data` under `key`, as `hmac.New(sha256.New, key)`
followed by `Write(data)` and `Sum(nil)` computes it. -/
def hmacSum (key data : List UInt8) : List UInt8 :=
  let kb := hmacKeyBlock key
  let ipad := kb.map (fun b => b ^^^ 0x36)
  let opad := kb.map (fun b => b ^^^ 0x5c)
  Sha256.Sum256 (opad ++ Sha256.Sum256 (ipad ++ data))

/-- The function `hmacSHA256` of `demo.go`. -/
def hmacSHA256 (key : List UInt8) (data : String) : List UInt8 :=
  hmacSum key (bytesOf data)

/-- The function `getSigningKey` of `demo.go`. -/
def getSigningKey (secretKey date region service : String) : List UInt8 :=
  let kDate := hmacSHA256 (bytesOf ("AWS4" ++ secretKey)) date
  let kRegion := hmacSHA256 kDate region
  let kService := hmacSHA256 kRegion service
  let kSigning := hmacSHA256 kService "aws4_request"
  kSigning

/-! ## `fmt.Sprintf` -/

/-- The text `%!(EXTRA string=a, string=b)` that `Sprintf` appends for
operands left over after the format is used up. -/
def sprintfExtra : List String → List Char
  | [] => []
  | args => "%!(EXTRA ".data ++
      (", ".intercalate (args.map fun a => "string=" ++ a)).data ++ [')']

/-- The output of `Sprintf` on the rest of a format and the remaining string
operands.  Only the verb `%s` is interpreted, which is the only verb in the
format strings of `demo.go`; every other character is copied. -/
def sprintfAux : List Char → List String → List Char
  | [], args => sprintfExtra args
  | c :: rest, args =>
    if c = '%' then
      match rest, args with
      | d :: rest', a :: args' =>
        if d = 's' then a.data ++ sprintfAux rest' args'
        else c :: d :: sprintfAux rest' (a :: args')
      | d :: rest', [] =>
        if d = 's' then "%!s(MISSING)".data ++ sprintfAux rest' []
        else c :: d :: sprintfAux rest' []
      | [], _ => "%!(NOVERB)".data ++ sprintfExtra args
    else c :: sprintfAux rest args

/-- The function `fmt.Sprintf` on string operands. -/
def Sprintf (format : String) (args : List String) : String :=
  String.mk (sprintfAux format.data args)

/-! ## `time.Time.Format` -/

/-- The UTC calendar fields of the instant `time.Now().UTC()`. -/
structure Time where
  year : Nat
  month : Nat
  day : Nat
  hour : Nat
  minute : Nat
  second : Nat
  deriving DecidableEq, Repr

/-- The function `appendInt` of package `time`: the decimal digits of `x`,
filled with zeros on the left to `width`. -/
def appendInt (x width : Nat) : List Char :=
  let ds := Nat.toDigits 10 x
  List.replicate (width - ds.length) '0' ++ ds

/-- The output of `Format` on the rest of a layout.  The layout elements
`2006`, `01`, `02`, `15`, `04` and `05` are interpreted, which are the only
ones in the layouts of `demo.go`; every other character is copied. -/
def formatAux (t : Time) : List Char → List Char
  | [] => []
  | '2' :: '0' :: '0' :: '6' :: rest => appendInt t.year 4 ++ formatAux t rest
  | '0' :: '1' :: rest => appendInt t.month 2 ++ formatAux t rest
  | '0' :: '2' :: rest => appendInt t.day 2 ++ formatAux t rest
  | '1' :: '5' :: rest => appendInt t.hour 2 ++ formatAux t rest
  | '0' :: '4' :: rest => appendInt t.minute 2 ++ formatAux t rest
  | '0' :: '5' :: rest => appendInt t.second 2 ++ formatAux t rest
  | c :: rest => c :: formatAux t rest

/-- The method `Time.Format`. -/
def Time.Format (t : Time) (layout : String) : String :=
  String.mk (formatAux t layout.data)

/-! ## `http.Header` -/

/-- The type `http.Header`: the value list stored under each key, if any. -/
abbrev Header := String → Option (List String)

/-- The predicate `validHeaderFieldByte`: the token characters of RFC 7230,
which are the ASCII letters and digits and the characters with the codes
listed here (exclamation mark, number sign, dollar, percent, ampersand,
apostrophe, asterisk, plus, hyphen, dot, caret, underscore, grave accent,
vertical bar and tilde). -/
def validHeaderFieldByte (c : Char) : Bool :=
  c.isAlphanum || c.toNat ∈ [33, 35, 36, 37, 38, 39, 42, 43, 45, 46, 94, 95, 96, 124, 126]

/-- The case loop of `canonicalMIMEHeaderKey`: a letter is put in upper case
at the start and after a hyphen, and in lower case elsewhere. -/
def canonicalCase : Bool → List Char → List Char
  | _, [] => []
  | upper, c :: rest =>
    let c' := if upper && c.isLower then c.toUpper
              else if !upper && c.isUpper then c.toLower
              else c
    c' :: canonicalCase (c' = '-') rest

/-- The function `textproto.CanonicalMIMEHeaderKey`: a key with a character
that is not a token character is returned unchanged. -/
def CanonicalMIMEHeaderKey (s : String) : String :=
  if s.data.all validHeaderFieldByte then String.mk (canonicalCase true s.data) else s

/-- The method `Header.Set`: the values under the canonical form of `key`
are replaced by the single value `value`. -/
def Header.Set (h : Header) (key value : String) : Header :=
  fun k => if k = CanonicalMIMEHeaderKey key then some [value] else h k

/-! ## Request bodies (`io.Reader`, `io.ReadAll`) -/

/-- An `io.ReadCloser`: the byte chunks that successive calls of `Read`
deliver, and the error that ends the stream (`none` for `io.EOF`). -/
structure Reader where
  chunks : List (List UInt8)
  err : Option String
  deriving DecidableEq, Repr

/-- The loop of `io.ReadAll`: chunks are appended to the buffer `b` until
`Read` reports an error or `io.EOF`. -/
def readAllLoop (b : List UInt8) : List (List UInt8) → List UInt8
  | [] => b
  | c :: cs => readAllLoop (b ++ c) cs

/-- The function `io.ReadAll`: the bytes read, and the error unless it is
`io.EOF`. -/
def ReadAll (r : Reader) : List UInt8 × Option String :=
  (readAllLoop [] r.chunks, r.err)

/-- The reader `io.NopCloser(bytes.NewBuffer(buf))`. -/
def NewBuffer (buf : List UInt8) : Reader :=
  ⟨[buf], none⟩

/-! ## Requests, handlers and the plugin -/

/-- The fields of `http.Request` that the middleware reads or writes, and
the request's own host.  `Path` and `RawQuery` are those of `r.URL`; `Body`
is `none` for a nil body; `Header` is an allocated map, as it is on every
request that the server or `http.NewRequest` builds. -/
structure Request where
  Method : String
  Host : String
  Path : String
  RawQuery : String
  Header : Header
  Body : Option Reader

/-- The state of an `httptest.ResponseRecorder`. -/
structure ResponseRecorder where
  Code : Nat
  HeaderMap : Header
  Body : List UInt8

/-- The function `httptest.NewRecorder`. -/
def NewRecorder : ResponseRecorder :=
  ⟨200, fun _ => none, []⟩

/-- An `http.Handler`: it receives the response writer and the request and
leaves both in a new state. -/
abbrev Handler := ResponseRecorder → Request → ResponseRecorder × Request

/-- The type `Config`. -/
structure Config where
  AccessKey : String
  SecretKey : String
  SessionToken : Option String
  Service : String
  Endpoint : String
  Region : String

/-- The type `Plugin`. -/
structure Plugin where
  name : String
  next : Handler
  AccessKey : String
  SecretKey : String
  SessionToken : Option String
  Service : String
  Endpoint : String
  Region : String

/-- The function `New`. -/
def New (next : Handler) (config : Config) (name : String) : Plugin × Option String :=
  ({ name := name
     next := next
     AccessKey := config.AccessKey
     SecretKey := config.SecretKey
     SessionToken := config.SessionToken
     Service := config.Service
     Endpoint := config.Endpoint
     Region := config.Region }, none)

/-- The local variables of `ServeHTTP` when it reaches the call of the next
handler, with the request `r` as mutated so far and the error that
`io.ReadAll` returned. -/
structure Locals where
  method : String
  host : String
  uri : String
  query : String
  dateStamp : String
  amzDate : String
  signedHeaders : String
  algorithm : String
  payload : List UInt8
  readErr : Option String
  payloadHash : List UInt8
  canonicalHeaders : String
  canonicalRequest : String
  canonicalRequestHash : List UInt8
  credentialScope : String
  stringToSign : String
  signingKey : List UInt8
  signature : String
  authorization : String
  r : Request

/-- The body of `ServeHTTP` up to the call of the next handler (lines 37 to
80 of `demo.go`); `now` is the value of `time.Now().UTC()`. -/
def ServeHTTP.locals (p : Plugin) (now : Time) (r : Request) : Locals :=
  let method := r.Method
  let host := p.Endpoint
  let uri := r.Path
  let query := r.RawQuery
  let dateStamp := now.Format "20060102"
  let amzDate := now.Format "20060102T150405Z"
  let signedHeaders := "host;x-amz-date"
  let algorithm := "AWS4-HMAC-SHA256"
  let read : List UInt8 × Option String × Option Reader :=
    match r.Body with
    | some body => ((ReadAll body).1, (ReadAll body).2, some (NewBuffer (ReadAll body).1))
    | none => ([], none, none)
  let payload := read.1
  let r := { r with Body := read.2.2 }
  let payloadHash := Sha256.Sum256 payload
  let canonicalHeaders := Sprintf "host:%s\nx-amz-date:%s\n" [host, amzDate]
  let tok : Request × String × String :=
    match p.SessionToken with
    | some token =>
      ({ r with Header := r.Header.Set "X-Amz-Security-Token" token },
       canonicalHeaders ++ Sprintf "x-amz-security-token:%s\n" [token],
       signedHeaders ++ ";x-amz-security-token")
    | none => (r, canonicalHeaders, signedHeaders)
  let r := tok.1
  let canonicalHeaders := tok.2.1
  let signedHeaders := tok.2.2
  let canonicalRequest := Sprintf "%s\n%s\n%s\n%s\n%s\n%s"
    [method, uri, query, canonicalHeaders, signedHeaders, hexEncodeToString payloadHash]
  let canonicalRequestHash := Sha256.Sum256 (bytesOf canonicalRequest)
  let credentialScope := Sprintf "%s/%s/%s/aws4_request" [dateStamp, p.Region, p.Service]
  let stringToSign := Sprintf "%s\n%s\n%s\n%s"
    [algorithm, amzDate, credentialScope, hexEncodeToString canonicalRequestHash]
  let signingKey := getSigningKey p.SecretKey dateStamp p.Region p.Service
  let signature := hexEncodeToString (hmacSHA256 signingKey stringToSign)
  let authorization := Sprintf "%s Credential=%s/%s, SignedHeaders=%s, Signature=%s"
    [algorithm, p.AccessKey, credentialScope, signedHeaders, signature]
  let r := { r with Header := r.Header.Set "X-Amz-Date" amzDate }
  let r := { r with Header := r.Header.Set "X-Amz-Content-Sha256" (hexEncodeToString payloadHash) }
  let r := { r with Header := r.Header.Set "Authorization" authorization }
  { method := method, host := host, uri := uri, query := query, dateStamp := dateStamp,
    amzDate := amzDate, signedHeaders := signedHeaders, algorithm := algorithm,
    payload := payload, readErr := read.2.1, payloadHash := payloadHash,
    canonicalHeaders := canonicalHeaders, canonicalRequest := canonicalRequest,
    canonicalRequestHash := canonicalRequestHash, credentialScope := credentialScope,
    stringToSign := stringToSign, signingKey := signingKey, signature := signature,
    authorization := authorization, r := r }

/-- The method `Plugin.ServeHTTP`: the request is signed and handed, with the
response writer, to the next handler. -/
def ServeHTTP (p : Plugin) (now : Time) (w : ResponseRecorder) (r : Request) :
    ResponseRecorder × Request :=
  p.next w (ServeHTTP.locals p now r).r

/-! ## Observations used to state the properties -/

/-- The bytes that reading a request body to its end delivers; a nil body
delivers none. -/
def bodyBytes : Option Reader → List UInt8
  | some body => (ReadAll body).1
  | none => []

/-- The error, if any, that reading a request body to its end reports. -/
def bodyError : Option Reader → Option String
  | some body => (ReadAll body).2
  | none => none

/-- The pieces of a text between the occurrences of the separator `sep`. -/
def splitChars (sep : Char) : List Char → List (List Char)
  | [] => [[]]
  | c :: cs =>
    if c = sep then [] :: splitChars sep cs
    else match splitChars sep cs with
      | l :: ls => (c :: l) :: ls
      | [] => [[c]]

/-- The lines of a canonical-headers block: the pieces that a line feed
ends, in order. -/
def headerLines (block : String) : List String :=
  ((splitChars '\n' block.data).dropLast).map String.mk

/-- The entries of a signed-header list: the pieces between semicolons. -/
def signedEntries (list : String) : List String :=
  (splitChars ';' list.data).map String.mk

/-- The value `amzDate` of `ServeHTTP` at the instant `now`. -/
def amzDateOf (now : Time) : String := now.Format "20060102T150405Z"

/-- The value `dateStamp` of `ServeHTTP` at the instant `now`. -/
def dateStampOf (now : Time) : String := now.Format "20060102"

/-- The name of a canonical-header line: the text before its first colon. -/
def lineName (line : String) : String :=
  String.mk (line.data.takeWhile (fun c => c ≠ ':'))

/-- The last of the pieces of a text between line feeds, if there is one. -/
def lastLine (text : String) : Option String :=
  (splitChars '\n' text.data).getLast?.map String.mk

/-- The text before the first `T` of a timestamp. -/
def beforeT (timestamp : String) : String :=
  String.mk (timestamp.data.takeWhile (fun c => c ≠ 'T'))

/-- The property of a text of being `n` characters, each one of the
lower-case hexadecimal digits. -/
def IsLowerHex (n : Nat) (s : String) : Prop :=
  s.data.length = n ∧ ∀ c ∈ s.data, c ∈ "0123456789abcdef".data

/-- The two messages that HMAC-SHA256 under `key` gives to SHA-256 for
`data`: the inner one and the outer one. -/
def hmacMessages (key data : List UInt8) : List (List UInt8) :=
  let kb := hmacKeyBlock key
  let inner := kb.map (fun b => b ^^^ 0x36) ++ data
  [inner, kb.map (fun b => b ^^^ 0x5c) ++ Sha256.Sum256 inner]

/-- The messages that the four rounds of `getSigningKey` give to SHA-256, in
order. -/
def signingKeyMessages (secretKey date region service : String) : List (List UInt8) :=
  let kDate := hmacSHA256 (bytesOf ("AWS4" ++ secretKey)) date
  let kRegion := hmacSHA256 kDate region
  let kService := hmacSHA256 kRegion service
  hmacMessages (bytesOf ("AWS4" ++ secretKey)) (bytesOf date) ++
    (hmacMessages kDate (bytesOf region) ++
      (hmacMessages kRegion (bytesOf service) ++
        hmacMessages kService (bytesOf "aws4_request")))

/-- The messages that one run of `ServeHTTP` gives to SHA-256, in order: the
payload, the canonical request, those of `getSigningKey` and those of the
HMAC of the string-to-sign.  (A key longer than the block size is hashed as
well; it is not listed.) -/
def hashedMessages (p : Plugin) (now : Time) (r : Request) : List (List UInt8) :=
  [(ServeHTTP.locals p now r).payload, bytesOf (ServeHTTP.locals p now r).canonicalRequest] ++
    (signingKeyMessages p.SecretKey (ServeHTTP.locals p now r).dateStamp p.Region p.Service ++
      hmacMessages (ServeHTTP.locals p now r).signingKey
        (bytesOf (ServeHTTP.locals p now r).stringToSign))

/-- A SHA-256 collision between two runs: at one position, the two lists of
messages hold different byte strings with the same digest. -/
def CollisionBetween (ms₁ ms₂ : List (List UInt8)) : Prop :=
  ∃ ab ∈ List.zip ms₁ ms₂, ab.1 ≠ ab.2 ∧ Sha256.Sum256 ab.1 = Sha256.Sum256 ab.2

/-! ## Example inputs -/

/-- A next handler that leaves the response untouched and hands back the
request it was given. -/
def echoNext : Handler := fun w r => (w, r)

/-- A configuration without a session token. -/
def demoConfig : Config :=
  ⟨"AKIDEXAMPLE", "secret", none, "lambda", "example.lambda-url.us-east-1.on.aws", "us-east-1"⟩

/-- The plugin that `New` builds from `demoConfig`. -/
def demoPlugin : Plugin := (New echoNext demoConfig "sigv4").1

/-- The plugin of `demoConfig` with the session token `TOKEN`. -/
def tokenPlugin : Plugin :=
  (New echoNext { demoConfig with SessionToken := some "TOKEN" } "sigv4").1

/-- The instant 2024-01-01 00:00:00 UTC. -/
def demoTime : Time := ⟨2024, 1, 1, 0, 0, 0⟩

/-- A body whose read delivers the two bytes of `hi` and then fails. -/
def failingBody : Reader := ⟨[[0x68, 0x69]], some "unexpected EOF"⟩

/-- A request without headers whose body read fails after two bytes. -/
def failingReq : Request :=
  ⟨"POST", "example.org", "/upload", "", fun _ => none, some failingBody⟩

/-- A request with one content header and a body that reads cleanly. -/
def demoReq : Request :=
  ⟨"POST", "example.org", "/upload", "a=1",
   fun k => if k = "Content-Type" then some ["text/plain"] else none,
   some ⟨[[0x68], [0x69]], none⟩⟩

/-- A request that already carries an `X-Amz-Security-Token` header. -/
def staleTokenReq : Request :=
  ⟨"GET", "example.org", "/health", "",
   fun k => if k = "X-Amz-Security-Token" then some ["stale"] else none, none⟩

/-- A next handler that writes one byte to the response each time it is
called and hands back the request it was given. -/
def markNext : Handler := fun w r => ({ w with Body := w.Body ++ [0x2a] }, r)

/-- The plugin of `demoConfig` with a line feed in the endpoint. -/
def injectedPlugin : Plugin :=
  (New echoNext { demoConfig with Endpoint := "example.org\nx-injected:1" } "sigv4").1

/-- The plugin of `demoConfig` with a NUL character after the secret key. -/
def nulKeyPlugin : Plugin :=
  (New echoNext { demoConfig with SecretKey := "secret\x00" } "sigv4").1

/-- The request of `TestHandler`: `GET /health` without headers and with a
nil body. -/
def healthReq : Request :=
  ⟨"GET", "example.lambda-url.us-east-1.on.aws", "/health", "", fun _ => none, none⟩

/-- A request whose body is present and delivers no byte. -/
def emptyBodyReq : Request :=
  ⟨"POST", "example.org", "/upload", "", fun _ => none, some ⟨[], none⟩⟩

/-- A request with the method, path, raw query and body bytes of `demoReq`,
with another host, other headers and the body in one chunk. -/
def otherHostReq : Request :=
  ⟨"POST", "other.example.net", "/upload", "a=1",
   fun k => if k = "Authorization" then some ["Basic Zm9vOmJhcg=="]
     else if k = "X-Amz-Date" then some ["19700101T000000Z"] else none,
   some ⟨[[0x68, 0x69]], none⟩⟩

set_option maxRecDepth 1000000

/-! ## Library facts -/

theorem Sha256.length_Sum256 (data : List UInt8) : (Sha256.Sum256 data).length = 32 := by
  simp [Sha256.Sum256, Sha256.wordBytes]

theorem length_hmacSum (key data : List UInt8) : (hmacSum key data).length = 32 := by
  simp [hmacSum, Sha256.length_Sum256]

/-- The digest of `abc` given in FIPS 180-4. -/
theorem Sha256.Sum256_abc :
    hexEncodeToString (Sha256.Sum256 (bytesOf "abc")) =
      "ba7816bf8f01cfea414140de5dae2223b00361a396177a9cb410ff61f20015ad" := by decide

/-- The signing key of the example in the AWS documentation of key
derivation. -/
theorem getSigningKey_reference :
    hexEncodeToString
        (getSigningKey "wJalrXUtnFEMI/K7MDENG+bPxRfiCYEXAMPLEKEY" "20120215" "us-east-1" "iam") =
      "f4780e2d9f65fa895f9c67b32ce1baf0b0d8a43505a000a1a9e090d414db404d" := by decide

theorem bytesOf_append (a b : String) : bytesOf (a ++ b) = bytesOf a ++ bytesOf b := by
  simp [bytesOf]

theorem canonical_securityToken :
    CanonicalMIMEHeaderKey "X-Amz-Security-Token" = "X-Amz-Security-Token" := by decide

theorem canonical_date : CanonicalMIMEHeaderKey "X-Amz-Date" = "X-Amz-Date" := by decide

theorem canonical_contentSha :
    CanonicalMIMEHeaderKey "X-Amz-Content-Sha256" = "X-Amz-Content-Sha256" := by decide

theorem canonical_authorization :
    CanonicalMIMEHeaderKey "Authorization" = "Authorization" := by decide

theorem Header.Set_apply (h : Header) (key value k : String) :
    h.Set key value k = if k = CanonicalMIMEHeaderKey key then some [value] else h k := rfl

/-! ## The format strings of `ServeHTTP` -/

theorem Sprintf_canonicalHeaders (host amzDate : String) :
    Sprintf "host:%s\nx-amz-date:%s\n" [host, amzDate] =
      "host:" ++ host ++ "\nx-amz-date:" ++ amzDate ++ "\n" := by
  apply String.ext
  simp [Sprintf, sprintfAux, sprintfExtra]

theorem Sprintf_tokenLine (token : String) :
    Sprintf "x-amz-security-token:%s\n" [token] = "x-amz-security-token:" ++ token ++ "\n" := by
  apply String.ext
  simp [Sprintf, sprintfAux, sprintfExtra]

theorem Sprintf_canonicalRequest (a b c d e f : String) :
    Sprintf "%s\n%s\n%s\n%s\n%s\n%s" [a, b, c, d, e, f] =
      a ++ "\n" ++ b ++ "\n" ++ c ++ "\n" ++ d ++ "\n" ++ e ++ "\n" ++ f := by
  apply String.ext
  simp [Sprintf, sprintfAux, sprintfExtra]

theorem Sprintf_credentialScope (a b c : String) :
    Sprintf "%s/%s/%s/aws4_request" [a, b, c] = a ++ "/" ++ b ++ "/" ++ c ++ "/aws4_request" := by
  apply String.ext
  simp [Sprintf, sprintfAux, sprintfExtra]

theorem Sprintf_stringToSign (a b c d : String) :
    Sprintf "%s\n%s\n%s\n%s" [a, b, c, d] = a ++ "\n" ++ b ++ "\n" ++ c ++ "\n" ++ d := by
  apply String.ext
  simp [Sprintf, sprintfAux, sprintfExtra]

theorem Sprintf_authorization (a b c d e : String) :
    Sprintf "%s Credential=%s/%s, SignedHeaders=%s, Signature=%s" [a, b, c, d, e] =
      a ++ " Credential=" ++ b ++ "/" ++ c ++ ", SignedHeaders=" ++ d ++ ", Signature=" ++ e := by
  apply String.ext
  simp [Sprintf, sprintfAux, sprintfExtra]

/-! ## The local variables of `ServeHTTP` -/

theorem locals_payload (p : Plugin) (now : Time) (r : Request) :
    (ServeHTTP.locals p now r).payload = bodyBytes r.Body := by
  cases h : r.Body <;> simp [ServeHTTP.locals, bodyBytes, h]

theorem locals_readErr (p : Plugin) (now : Time) (r : Request) :
    (ServeHTTP.locals p now r).readErr = bodyError r.Body := by
  cases h : r.Body <;> simp [ServeHTTP.locals, bodyError, h]

theorem locals_payloadHash (p : Plugin) (now : Time) (r : Request) :
    (ServeHTTP.locals p now r).payloadHash = Sha256.Sum256 (bodyBytes r.Body) := by
  cases h : r.Body <;> simp [ServeHTTP.locals, bodyBytes, h]

theorem locals_amzDate (p : Plugin) (now : Time) (r : Request) :
    (ServeHTTP.locals p now r).amzDate = amzDateOf now := rfl

theorem locals_dateStamp (p : Plugin) (now : Time) (r : Request) :
    (ServeHTTP.locals p now r).dateStamp = dateStampOf now := rfl

theorem locals_canonicalHeaders (p : Plugin) (now : Time) (r : Request) :
    (ServeHTTP.locals p now r).canonicalHeaders =
      match p.SessionToken with
      | none => "host:" ++ p.Endpoint ++ "\nx-amz-date:" ++ amzDateOf now ++ "\n"
      | some token => "host:" ++ p.Endpoint ++ "\nx-amz-date:" ++ amzDateOf now ++ "\n" ++
          ("x-amz-security-token:" ++ token ++ "\n") := by
  cases h : p.SessionToken <;>
    simp [ServeHTTP.locals, h, Sprintf_canonicalHeaders, Sprintf_tokenLine, amzDateOf]

theorem locals_signedHeaders (p : Plugin) (now : Time) (r : Request) :
    (ServeHTTP.locals p now r).signedHeaders =
      match p.SessionToken with
      | none => "host;x-amz-date"
      | some _ => "host;x-amz-date;x-amz-security-token" := by
  cases h : p.SessionToken
  · simp [ServeHTTP.locals, h]
  · simp only [ServeHTTP.locals, h]
    decide

theorem locals_canonicalRequest (p : Plugin) (now : Time) (r : Request) :
    (ServeHTTP.locals p now r).canonicalRequest =
      r.Method ++ "\n" ++ r.Path ++ "\n" ++ r.RawQuery ++ "\n" ++
        (ServeHTTP.locals p now r).canonicalHeaders ++ "\n" ++
        (ServeHTTP.locals p now r).signedHeaders ++ "\n" ++
        hexEncodeToString (Sha256.Sum256 (bodyBytes r.Body)) := by
  rw [← locals_payloadHash p now r]
  simp only [ServeHTTP.locals, Sprintf_canonicalRequest]

theorem locals_canonicalRequestHash (p : Plugin) (now : Time) (r : Request) :
    (ServeHTTP.locals p now r).canonicalRequestHash =
      Sha256.Sum256 (bytesOf (ServeHTTP.locals p now r).canonicalRequest) := rfl

theorem locals_credentialScope (p : Plugin) (now : Time) (r : Request) :
    (ServeHTTP.locals p now r).credentialScope =
      dateStampOf now ++ "/" ++ p.Region ++ "/" ++ p.Service ++ "/aws4_request" := by
  simp only [ServeHTTP.locals, Sprintf_credentialScope, dateStampOf]

theorem locals_stringToSign (p : Plugin) (now : Time) (r : Request) :
    (ServeHTTP.locals p now r).stringToSign =
      "AWS4-HMAC-SHA256" ++ "\n" ++ amzDateOf now ++ "\n" ++
        (ServeHTTP.locals p now r).credentialScope ++ "\n" ++
        hexEncodeToString (Sha256.Sum256 (bytesOf (ServeHTTP.locals p now r).canonicalRequest)) := by
  simp only [ServeHTTP.locals, Sprintf_stringToSign, amzDateOf]

theorem locals_signature (p : Plugin) (now : Time) (r : Request) :
    (ServeHTTP.locals p now r).signature =
      hexEncodeToString (hmacSum (getSigningKey p.SecretKey (dateStampOf now) p.Region p.Service)
        (bytesOf (ServeHTTP.locals p now r).stringToSign)) := rfl

theorem locals_authorization (p : Plugin) (now : Time) (r : Request) :
    (ServeHTTP.locals p now r).authorization =
      "AWS4-HMAC-SHA256" ++ " Credential=" ++ p.AccessKey ++ "/" ++
        (ServeHTTP.locals p now r).credentialScope ++ ", SignedHeaders=" ++
        (ServeHTTP.locals p now r).signedHeaders ++ ", Signature=" ++
        (ServeHTTP.locals p now r).signature := by
  simp only [ServeHTTP.locals, Sprintf_authorization]

theorem locals_header (p : Plugin) (now : Time) (r : Request) (k : String) :
    (ServeHTTP.locals p now r).r.Header k =
      if k = "Authorization" then some [(ServeHTTP.locals p now r).authorization]
      else if k = "X-Amz-Content-Sha256" then
        some [hexEncodeToString (Sha256.Sum256 (bodyBytes r.Body))]
      else if k = "X-Amz-Date" then some [amzDateOf now]
      else match p.SessionToken with
        | some token => if k = "X-Amz-Security-Token" then some [token] else r.Header k
        | none => r.Header k := by
  rw [← locals_payloadHash p now r]
  cases h : p.SessionToken <;>
    simp only [ServeHTTP.locals, h, Header.Set_apply, canonical_securityToken, canonical_date,
      canonical_contentSha, canonical_authorization, amzDateOf]

theorem locals_body (p : Plugin) (now : Time) (r : Request) :
    (ServeHTTP.locals p now r).r.Body =
      match r.Body with
      | some body => some (NewBuffer (ReadAll body).1)
      | none => none := by
  cases h : r.Body <;> cases h' : p.SessionToken <;> simp [ServeHTTP.locals, h, h']

theorem locals_frame (p : Plugin) (now : Time) (r : Request) :
    (ServeHTTP.locals p now r).r.Method = r.Method ∧
    (ServeHTTP.locals p now r).r.Host = r.Host ∧
    (ServeHTTP.locals p now r).r.Path = r.Path ∧
    (ServeHTTP.locals p now r).r.RawQuery = r.RawQuery := by
  cases h' : p.SessionToken <;> simp [ServeHTTP.locals, h']

theorem bodyBytes_NewBuffer (b : List UInt8) : bodyBytes (some (NewBuffer b)) = b := by
  simp [bodyBytes, ReadAll, NewBuffer, readAllLoop]

/-! ## Splitting text at a separator -/

theorem splitChars_ne_nil (sep : Char) (l : List Char) : splitChars sep l ≠ [] := by
  cases l with
  | nil => simp [splitChars]
  | cons c cs =>
    by_cases h : c = sep
    · simp [splitChars, h]
    · cases hs : splitChars sep cs <;> simp [splitChars, h, hs]

theorem splitChars_sep_free (sep : Char) (a : List Char) (h : sep ∉ a) :
    splitChars sep a = [a] := by
  induction a with
  | nil => rfl
  | cons c cs ih =>
    have hc : c ≠ sep := fun e => h (by simp [e])
    have hcs : sep ∉ cs := fun m => h (List.mem_cons_of_mem _ m)
    simp [splitChars, hc, ih hcs]

theorem splitChars_append_sep (sep : Char) (x y : List Char) :
    splitChars sep (x ++ sep :: y) = splitChars sep x ++ splitChars sep y := by
  induction x with
  | nil => simp [splitChars]
  | cons c cs ih =>
    by_cases h : c = sep
    · simp [splitChars, h, ih]
    · have hne := splitChars_ne_nil sep cs
      cases hs : splitChars sep cs with
      | nil => exact absurd hs hne
      | cons l ls => simp [splitChars, h, ih, hs]

theorem dropLast_splitChars_append_sep (sep : Char) (x y : List Char) :
    (splitChars sep (x ++ sep :: y)).dropLast =
      splitChars sep x ++ (splitChars sep y).dropLast := by
  rw [splitChars_append_sep, List.dropLast_append_of_ne_nil _ (splitChars_ne_nil sep y)]

/-! ## Digits of the timestamp -/

theorem digitChar_isDigit (n : Nat) (h : n < 10) : (Nat.digitChar n).isDigit = true := by
  revert n
  decide

theorem toDigitsCore_isDigit (fuel : Nat) : ∀ (n : Nat) (ds : List Char),
    (∀ c ∈ ds, c.isDigit = true) → ∀ c ∈ Nat.toDigitsCore 10 fuel n ds, c.isDigit = true := by
  induction fuel with
  | zero => intro n ds hds c hc; exact hds c (by simpa [Nat.toDigitsCore] using hc)
  | succ f ih =>
    intro n ds hds c hc
    have hd : (Nat.digitChar (n % 10)).isDigit = true :=
      digitChar_isDigit _ (Nat.mod_lt _ (by decide))
    have hds' : ∀ c ∈ Nat.digitChar (n % 10) :: ds, c.isDigit = true := by
      intro c hc
      rcases List.mem_cons.mp hc with rfl | hc
      · exact hd
      · exact hds c hc
    simp only [Nat.toDigitsCore] at hc
    split at hc
    · exact hds' c hc
    · exact ih _ _ hds' c hc

theorem appendInt_isDigit (x width : Nat) : ∀ c ∈ appendInt x width, c.isDigit = true := by
  intro c hc
  simp only [appendInt, List.mem_append, List.mem_replicate] at hc
  rcases hc with ⟨_, rfl⟩ | hc
  · decide
  · exact toDigitsCore_isDigit _ _ [] (by simp) c hc

theorem amzDateOf_data (now : Time) :
    (amzDateOf now).data =
      appendInt now.year 4 ++ appendInt now.month 2 ++ appendInt now.day 2 ++ 'T' ::
        (appendInt now.hour 2 ++ appendInt now.minute 2 ++ appendInt now.second 2 ++ ['Z']) := by
  simp [amzDateOf, Time.Format, formatAux]

theorem amzDateOf_no_newline (now : Time) : '\n' ∉ (amzDateOf now).data := by
  intro h
  rw [amzDateOf_data] at h
  simp only [List.mem_append, List.mem_cons, List.mem_singleton, List.not_mem_nil] at h
  have hd : ∀ x w, '\n' ∉ appendInt x w := fun x w m =>
    absurd (appendInt_isDigit x w _ m) (by decide)
  rcases h with ((h | h) | h) | h | ((h | h) | h) | h | h
  · exact hd _ _ h
  · exact hd _ _ h
  · exact hd _ _ h
  · exact absurd h (by decide)
  · exact hd _ _ h
  · exact hd _ _ h
  · exact hd _ _ h
  · exact absurd h (by decide)
  · exact h

/-! ## Lines of the canonical-headers block -/

theorem headerLines_append_line (x y : List Char) :
    headerLines (String.mk (x ++ '\n' :: y)) =
      (splitChars '\n' x).map String.mk ++ headerLines (String.mk y) := by
  simp [headerLines, dropLast_splitChars_append_sep]

theorem headerLines_cons_line (a rest : List Char) (ha : '\n' ∉ a) :
    headerLines (String.mk (a ++ '\n' :: rest)) = String.mk a :: headerLines (String.mk rest) := by
  rw [headerLines_append_line, splitChars_sep_free _ _ ha]
  rfl

theorem headerLines_nil : headerLines (String.mk []) = [] := by
  simp [headerLines, splitChars]

theorem canonicalHeaders_data_none (e t : String) :
    ("host:" ++ e ++ "\nx-amz-date:" ++ t ++ "\n").data =
      ("host:" ++ e).data ++ '\n' :: (("x-amz-date:" ++ t).data ++ '\n' :: []) := by
  simp [String.data_append]

theorem canonicalHeaders_data_some (e t token : String) :
    ("host:" ++ e ++ "\nx-amz-date:" ++ t ++ "\n" ++
        ("x-amz-security-token:" ++ token ++ "\n")).data =
      (("host:" ++ e).data ++ '\n' :: ("x-amz-date:" ++ t).data) ++ '\n' ::
        (("x-amz-security-token:" ++ token).data ++ '\n' :: []) := by
  simp [String.data_append]

theorem canonicalHeaders_data_none' (e t : String) :
    ("host:" ++ e ++ "\nx-amz-date:" ++ t ++ "\n").data =
      (("host:" ++ e).data ++ '\n' :: ("x-amz-date:" ++ t).data) ++ '\n' :: [] := by
  simp [String.data_append]

theorem string_eta (s : String) : String.mk s.data = s := rfl

/-! ## Lines and names of the canonical-headers block -/

theorem headerLines_block_none (e t : String) (he : '\n' ∉ e.data) (ht : '\n' ∉ t.data) :
    headerLines ("host:" ++ e ++ "\nx-amz-date:" ++ t ++ "\n") =
      ["host:" ++ e, "x-amz-date:" ++ t] := by
  have h1 : '\n' ∉ ("host:" ++ e).data := by
    simp only [String.data_append, List.mem_append, not_or]
    exact ⟨by decide, he⟩
  have h2 : '\n' ∉ ("x-amz-date:" ++ t).data := by
    simp only [String.data_append, List.mem_append, not_or]
    exact ⟨by decide, ht⟩
  rw [← string_eta ("host:" ++ e ++ "\nx-amz-date:" ++ t ++ "\n"),
    canonicalHeaders_data_none, headerLines_cons_line _ _ h1, headerLines_cons_line _ _ h2,
    headerLines_nil]

theorem headerLines_block_some (e t token : String) (he : '\n' ∉ e.data)
    (ht : '\n' ∉ t.data) (hk : '\n' ∉ token.data) :
    headerLines ("host:" ++ e ++ "\nx-amz-date:" ++ t ++ "\n" ++
        ("x-amz-security-token:" ++ token ++ "\n")) =
      ["host:" ++ e, "x-amz-date:" ++ t, "x-amz-security-token:" ++ token] := by
  have h3 : '\n' ∉ ("x-amz-security-token:" ++ token).data := by
    simp only [String.data_append, List.mem_append, not_or]
    exact ⟨by decide, hk⟩
  have hn := headerLines_block_none e t he ht
  rw [← string_eta ("host:" ++ e ++ "\nx-amz-date:" ++ t ++ "\n"),
    canonicalHeaders_data_none', headerLines_append_line, headerLines_nil,
    List.append_nil] at hn
  rw [← string_eta ("host:" ++ e ++ "\nx-amz-date:" ++ t ++ "\n" ++
      ("x-amz-security-token:" ++ token ++ "\n")),
    canonicalHeaders_data_some, headerLines_append_line, headerLines_cons_line _ _ h3,
    headerLines_nil, hn, string_eta]
  rfl

theorem lineName_host (e : String) : lineName ("host:" ++ e) = "host" := by
  apply String.ext
  simp [lineName, String.data_append, List.takeWhile]

theorem lineName_date (t : String) : lineName ("x-amz-date:" ++ t) = "x-amz-date" := by
  apply String.ext
  simp [lineName, String.data_append, List.takeWhile]

theorem lineName_token (k : String) :
    lineName ("x-amz-security-token:" ++ k) = "x-amz-security-token" := by
  apply String.ext
  simp [lineName, String.data_append, List.takeWhile]

/-! ## Hexadecimal text -/

theorem getD_eq_default_or_mem {α : Type} (l : List α) (d : α) :
    ∀ i : Nat, l.getD i d = d ∨ l.getD i d ∈ l := by
  induction l with
  | nil => intro i; exact Or.inl (by simp)
  | cons a as ih =>
    intro i
    cases i with
    | zero => exact Or.inr (by simp)
    | succ j =>
      rcases ih j with h | h
      · exact Or.inl (by simpa using h)
      · exact Or.inr (List.mem_cons_of_mem _ (by simpa using h))

theorem getD_mem_of_default_mem {α : Type} (l : List α) (i : Nat) (d : α) (hd : d ∈ l) :
    l.getD i d ∈ l := by
  rcases getD_eq_default_or_mem l d i with h | h
  · rw [h]; exact hd
  · exact h

theorem hexByte_mem (v : UInt8) : ∀ c ∈ hexByte v, c ∈ "0123456789abcdef".data := by
  intro c hc
  simp only [hexByte, List.mem_cons, List.mem_singleton, List.not_mem_nil, or_false] at hc
  have h0 : '0' ∈ hextable := by decide
  rcases hc with rfl | rfl
  · exact getD_mem_of_default_mem hextable _ _ h0
  · exact getD_mem_of_default_mem hextable _ _ h0

theorem length_flatMap_hexByte (b : List UInt8) : (b.flatMap hexByte).length = 2 * b.length := by
  induction b with
  | nil => rfl
  | cons v vs ih => simp [List.flatMap_cons, hexByte, ih]; omega

theorem hexEncodeToString_isLowerHex (b : List UInt8) :
    IsLowerHex (2 * b.length) (hexEncodeToString b) := by
  refine ⟨length_flatMap_hexByte b, fun c hc => ?_⟩
  simp only [hexEncodeToString, List.mem_flatMap] at hc
  obtain ⟨v, _, hv⟩ := hc
  exact hexByte_mem v c hv

/-! ## The last line of a text -/

theorem lastLine_append (x h : String) (hh : '\n' ∉ h.data) :
    lastLine (x ++ "\n" ++ h) = some h := by
  have hd : (x ++ "\n" ++ h).data = x.data ++ '\n' :: h.data := by
    simp [String.data_append]
  simp only [lastLine]
  rw [hd, splitChars_append_sep, splitChars_sep_free _ _ hh, List.getLast?_append]
  rfl

/-! ## The timestamp and the date stamp -/

theorem dateStampOf_data (now : Time) :
    (dateStampOf now).data =
      appendInt now.year 4 ++ appendInt now.month 2 ++ appendInt now.day 2 := by
  simp [dateStampOf, Time.Format, formatAux]

theorem takeWhile_append_stop (a rest : List Char) (stop : Char) (h : stop ∉ a) :
    (a ++ stop :: rest).takeWhile (fun c => c ≠ stop) = a := by
  induction a with
  | nil => simp [List.takeWhile]
  | cons c cs ih =>
    have hc : c ≠ stop := fun e => h (by simp [e])
    have hcs : stop ∉ cs := fun m => h (List.mem_cons_of_mem _ m)
    simpa [List.takeWhile, hc] using ih hcs

theorem dateStampOf_no_T (now : Time) : 'T' ∉ (dateStampOf now).data := by
  intro h
  rw [dateStampOf_data] at h
  simp only [List.mem_append] at h
  have hd : ∀ x w, 'T' ∉ appendInt x w := fun x w m =>
    absurd (appendInt_isDigit x w _ m) (by decide)
  rcases h with (h | h) | h
  · exact hd _ _ h
  · exact hd _ _ h
  · exact hd _ _ h

/-! ## Requests that agree on the signed inputs -/

theorem locals_congr (p : Plugin) (now : Time) (r₁ r₂ : Request)
    (hMethod : r₁.Method = r₂.Method) (hPath : r₁.Path = r₂.Path)
    (hQuery : r₁.RawQuery = r₂.RawQuery) (hBody : bodyBytes r₁.Body = bodyBytes r₂.Body) :
    (ServeHTTP.locals p now r₁).canonicalRequest = (ServeHTTP.locals p now r₂).canonicalRequest ∧
    (ServeHTTP.locals p now r₁).stringToSign = (ServeHTTP.locals p now r₂).stringToSign ∧
    (ServeHTTP.locals p now r₁).authorization = (ServeHTTP.locals p now r₂).authorization := by
  have hc : (ServeHTTP.locals p now r₁).canonicalRequest =
      (ServeHTTP.locals p now r₂).canonicalRequest := by
    rw [locals_canonicalRequest, locals_canonicalRequest, locals_canonicalHeaders,
      locals_canonicalHeaders, locals_signedHeaders, locals_signedHeaders, hMethod, hPath,
      hQuery, hBody]
  have hs : (ServeHTTP.locals p now r₁).stringToSign =
      (ServeHTTP.locals p now r₂).stringToSign := by
    rw [locals_stringToSign, locals_stringToSign, locals_credentialScope,
      locals_credentialScope, hc]
  refine ⟨hc, hs, ?_⟩
  rw [locals_authorization, locals_authorization, locals_signature, locals_signature,
    locals_credentialScope, locals_credentialScope, locals_signedHeaders, locals_signedHeaders,
    hs]

theorem bodyBytes_locals (p : Plugin) (now : Time) (r : Request) :
    bodyBytes (ServeHTTP.locals p now r).r.Body = bodyBytes r.Body := by
  rw [locals_body]
  cases h : r.Body
  · rfl
  · simp [bodyBytes, ReadAll, NewBuffer, readAllLoop]

/-! ## The UTF-8 encoding is injective -/

theorem and_or_63 : ∀ n, n < 256 → n &&& 63 ||| 128 = n % 64 + 128 := by decide

theorem and_or_31 : ∀ n, n < 256 → n &&& 31 ||| 192 = n % 32 + 192 := by decide

theorem and_or_15 : ∀ n, n < 256 → n &&& 15 ||| 224 = n % 16 + 224 := by decide

theorem and_or_7 : ∀ n, n < 256 → n &&& 7 ||| 240 = n % 8 + 240 := by decide

theorem toNat_continuation (x : UInt8) : (x &&& 0x3f ||| 0x80).toNat = x.toNat % 64 + 128 := by
  show ((x.toBitVec &&& (0x3f : UInt8).toBitVec) ||| (0x80 : UInt8).toBitVec).toNat = _
  simp only [BitVec.toNat_or, BitVec.toNat_and]
  exact and_or_63 _ x.toBitVec.isLt

theorem toNat_lead2 (x : UInt8) : (x &&& 0x1f ||| 0xc0).toNat = x.toNat % 32 + 192 := by
  show ((x.toBitVec &&& (0x1f : UInt8).toBitVec) ||| (0xc0 : UInt8).toBitVec).toNat = _
  simp only [BitVec.toNat_or, BitVec.toNat_and]
  exact and_or_31 _ x.toBitVec.isLt

theorem toNat_lead3 (x : UInt8) : (x &&& 0x0f ||| 0xe0).toNat = x.toNat % 16 + 224 := by
  show ((x.toBitVec &&& (0x0f : UInt8).toBitVec) ||| (0xe0 : UInt8).toBitVec).toNat = _
  simp only [BitVec.toNat_or, BitVec.toNat_and]
  exact and_or_15 _ x.toBitVec.isLt

theorem toNat_lead4 (x : UInt8) : (x &&& 0x07 ||| 0xf0).toNat = x.toNat % 8 + 240 := by
  show ((x.toBitVec &&& (0x07 : UInt8).toBitVec) ||| (0xf0 : UInt8).toBitVec).toNat = _
  simp only [BitVec.toNat_or, BitVec.toNat_and]
  exact and_or_7 _ x.toBitVec.isLt

theorem shift_toUInt8_toNat (v : UInt32) :
    (v >>> 6).toUInt8.toNat = v.toNat / 2 ^ 6 % 256 ∧
    (v >>> 12).toUInt8.toNat = v.toNat / 2 ^ 12 % 256 ∧
    (v >>> 18).toUInt8.toNat = v.toNat / 2 ^ 18 % 256 ∧
    v.toUInt8.toNat = v.toNat % 256 := by
  refine ⟨?_, ?_, ?_, ?_⟩
  · show (BitVec.ofNat 8 ((v.toBitVec >>> (6 : Nat)).toNat)).toNat = _
    simp only [BitVec.toNat_ofNat, BitVec.toNat_ushiftRight, Nat.shiftRight_eq_div_pow]
    rfl
  · show (BitVec.ofNat 8 ((v.toBitVec >>> (12 : Nat)).toNat)).toNat = _
    simp only [BitVec.toNat_ofNat, BitVec.toNat_ushiftRight, Nat.shiftRight_eq_div_pow]
    rfl
  · show (BitVec.ofNat 8 ((v.toBitVec >>> (18 : Nat)).toNat)).toNat = _
    simp only [BitVec.toNat_ofNat, BitVec.toNat_ushiftRight, Nat.shiftRight_eq_div_pow]
    rfl
  · show (BitVec.ofNat 8 v.toBitVec.toNat).toNat = _
    simp only [BitVec.toNat_ofNat]
    rfl

theorem uint32_le_iff (v : UInt32) (n : Nat) (hn : n < 4294967296) :
    v ≤ UInt32.ofNat n ↔ v.toNat ≤ n := by
  rw [UInt32.le_def, BitVec.le_def]
  show v.toNat ≤ n % 4294967296 ↔ _
  rw [Nat.mod_eq_of_lt hn]

theorem utf8EncodeChar_cases (c : Char) :
    (c.val.toNat ≤ 127 ∧ (String.utf8EncodeChar c).map UInt8.toNat = [c.val.toNat]) ∨
    (127 < c.val.toNat ∧ c.val.toNat ≤ 2047 ∧
      (String.utf8EncodeChar c).map UInt8.toNat =
        [c.val.toNat / 64 % 32 + 192, c.val.toNat % 64 + 128]) ∨
    (2047 < c.val.toNat ∧ c.val.toNat ≤ 65535 ∧
      (String.utf8EncodeChar c).map UInt8.toNat =
        [c.val.toNat / 4096 % 16 + 224, c.val.toNat / 64 % 64 + 128,
          c.val.toNat % 64 + 128]) ∨
    (65535 < c.val.toNat ∧
      (String.utf8EncodeChar c).map UInt8.toNat =
        [c.val.toNat / 262144 % 8 + 240, c.val.toNat / 4096 % 64 + 128,
          c.val.toNat / 64 % 64 + 128, c.val.toNat % 64 + 128]) := by
  obtain ⟨s6, s12, s18, s0⟩ := shift_toUInt8_toNat c.val
  have e1 : (c.val ≤ 0x7f) ↔ c.val.toNat ≤ 127 := uint32_le_iff c.val 127 (by decide)
  have e2 : (c.val ≤ 0x7ff) ↔ c.val.toNat ≤ 2047 := uint32_le_iff c.val 2047 (by decide)
  have e3 : (c.val ≤ 0xffff) ↔ c.val.toNat ≤ 65535 := uint32_le_iff c.val 65535 (by decide)
  unfold String.utf8EncodeChar
  simp only [e1, e2, e3]
  by_cases h1 : c.val.toNat ≤ 127
  · left
    refine ⟨h1, ?_⟩
    simp only [h1, if_true, List.map, s0]
    congr 1
    omega
  · by_cases h2 : c.val.toNat ≤ 2047
    · right; left
      refine ⟨by omega, h2, ?_⟩
      simp only [h1, h2, if_true, if_false, List.map, toNat_continuation, toNat_lead2, s0, s6]
      congr 1
      · omega
      · congr 1; omega
    · by_cases h3 : c.val.toNat ≤ 65535
      · right; right; left
        refine ⟨by omega, h3, ?_⟩
        simp only [h1, h2, h3, if_true, if_false, List.map, toNat_continuation, toNat_lead3,
          s0, s6, s12]
        congr 1
        · omega
        · congr 1
          · omega
          · congr 1; omega
      · right; right; right
        refine ⟨by omega, ?_⟩
        simp only [h1, h2, h3, if_false, List.map, toNat_continuation, toNat_lead4,
          s0, s6, s12, s18]
        congr 1
        · omega
        · congr 1
          · omega
          · congr 1
            · omega
            · congr 1; omega

theorem char_eq_of_toNat_eq (c d : Char) (h : c.val.toNat = d.val.toNat) : c = d :=
  Char.ext (UInt32.eq_of_toBitVec_eq (BitVec.eq_of_toNat_eq h))

theorem char_toNat_lt (c : Char) : c.val.toNat < 1114112 := by
  have h := c.valid
  simp only [UInt32.isValidChar, Nat.isValidChar] at h
  omega

theorem utf8EncodeChar_append_inj (c d : Char) (r s : List UInt8)
    (h : String.utf8EncodeChar c ++ r = String.utf8EncodeChar d ++ s) : c = d ∧ r = s := by
  have hn := congrArg (List.map UInt8.toNat) h
  simp only [List.map_append] at hn
  have hc := char_toNat_lt c
  have hd := char_toNat_lt d
  have hv : c.val.toNat = d.val.toNat := by
    rcases utf8EncodeChar_cases c with ⟨a1, ec⟩ | ⟨a1, a2, ec⟩ | ⟨a1, a2, ec⟩ | ⟨a1, ec⟩ <;>
    rcases utf8EncodeChar_cases d with ⟨b1, ed⟩ | ⟨b1, b2, ed⟩ | ⟨b1, b2, ed⟩ | ⟨b1, ed⟩ <;>
    rw [ec, ed] at hn <;>
    simp only [List.cons_append, List.nil_append, List.cons.injEq] at hn <;>
    omega
  have hcd := char_eq_of_toNat_eq c d hv
  subst hcd
  exact ⟨rfl, List.append_cancel_left h⟩

theorem utf8EncodeChar_ne_nil (c : Char) : String.utf8EncodeChar c ≠ [] := by
  intro h
  have hl := String.length_utf8EncodeChar c
  rw [h] at hl
  have := Char.utf8Size_pos c
  simp at hl
  omega

theorem flatMap_utf8EncodeChar_inj : ∀ l₁ l₂ : List Char,
    l₁.flatMap String.utf8EncodeChar = l₂.flatMap String.utf8EncodeChar → l₁ = l₂ := by
  intro l₁
  induction l₁ with
  | nil =>
    intro l₂ h
    cases l₂ with
    | nil => rfl
    | cons d ds =>
      simp only [List.flatMap_nil, List.flatMap_cons] at h
      have := utf8EncodeChar_ne_nil d
      cases hd : String.utf8EncodeChar d with
      | nil => exact absurd hd this
      | cons b bs => rw [hd] at h; simp at h
  | cons c cs ih =>
    intro l₂ h
    cases l₂ with
    | nil =>
      simp only [List.flatMap_nil, List.flatMap_cons] at h
      have := utf8EncodeChar_ne_nil c
      cases hc : String.utf8EncodeChar c with
      | nil => exact absurd hc this
      | cons b bs => rw [hc] at h; simp at h
    | cons d ds =>
      simp only [List.flatMap_cons] at h
      obtain ⟨h1, h2⟩ := utf8EncodeChar_append_inj c d _ _ h
      rw [h1, ih ds h2]

theorem bytesOf_inj (s t : String) (h : bytesOf s = bytesOf t) : s = t :=
  String.ext (flatMap_utf8EncodeChar_inj s.data t.data h)

/-! ## Hexadecimal text determines the bytes -/

theorem hextable_index : ∀ i, i < 16 → hextable.indexOf (hextable.getD i '0') = i := by decide

theorem uint8_eq_of_toNat_eq (v w : UInt8) (h : v.toNat = w.toNat) : v = w :=
  UInt8.eq_of_toBitVec_eq (BitVec.eq_of_toNat_eq h)

theorem uint8_toNat_lt (v : UInt8) : v.toNat < 256 := v.toBitVec.isLt

theorem hexByte_inj (v w : UInt8) (h : hexByte v = hexByte w) : v = w := by
  simp only [hexByte, List.cons.injEq, and_true] at h
  obtain ⟨h1, h2⟩ := h
  have hv := uint8_toNat_lt v
  have hw := uint8_toNat_lt w
  have e1 : ∀ n : Nat, n >>> 4 = n / 16 := fun n => by
    rw [Nat.shiftRight_eq_div_pow]
  have e2 : ∀ n : Nat, n &&& 0x0f = n % 16 := fun n =>
    Nat.and_pow_two_sub_one_eq_mod n 4
  rw [e1, e1] at h1
  rw [e2, e2] at h2
  have i1 := congrArg (fun a => List.indexOf a hextable) h1
  have i2 := congrArg (fun a => List.indexOf a hextable) h2
  beta_reduce at i1 i2
  rw [hextable_index _ (by omega), hextable_index _ (by omega)] at i1
  rw [hextable_index _ (Nat.mod_lt _ (by decide)),
    hextable_index _ (Nat.mod_lt _ (by decide))] at i2
  exact uint8_eq_of_toNat_eq v w (by omega)

theorem flatMap_hexByte_inj : ∀ a b : List UInt8,
    a.flatMap hexByte = b.flatMap hexByte → a = b := by
  intro a
  induction a with
  | nil =>
    intro b h
    cases b with
    | nil => rfl
    | cons w ws => simp [List.flatMap_cons, hexByte] at h
  | cons v vs ih =>
    intro b h
    cases b with
    | nil => simp [List.flatMap_cons, hexByte] at h
    | cons w ws =>
      simp only [List.flatMap_cons] at h
      have hl : (hexByte v).length = (hexByte w).length := rfl
      obtain ⟨h1, h2⟩ := List.append_inj h hl
      rw [hexByte_inj v w h1, ih ws h2]

theorem hexEncodeToString_inj (a b : List UInt8)
    (h : hexEncodeToString a = hexEncodeToString b) : a = b :=
  flatMap_hexByte_inj a b (congrArg String.data h)

/-! ## Texts with a common beginning or end -/

theorem string_append_cancel_left (a x y : String) (h : a ++ x = a ++ y) : x = y := by
  apply String.ext
  have := congrArg String.data h
  simp only [String.data_append] at this
  exact List.append_cancel_left this

theorem string_append_cancel_right (x y b : String) (h : x ++ b = y ++ b) : x = y := by
  apply String.ext
  have := congrArg String.data h
  simp only [String.data_append] at this
  exact List.append_cancel_right this

/-! ## HMAC-SHA256 and collisions of SHA-256 -/

theorem length_hmacKeyBlock (key : List UInt8) : (hmacKeyBlock key).length = 64 := by
  simp only [hmacKeyBlock, blockSize]
  split
  · simp [Sha256.length_Sum256]
  · simp; omega

theorem hmacKeyBlock_of_length_32 (key : List UInt8) (h : key.length = 32) :
    hmacKeyBlock key = key ++ List.replicate 32 (0 : UInt8) := by
  simp [hmacKeyBlock, blockSize, h]

theorem xor_const_inj (c : UInt8) (a b : UInt8) (h : a ^^^ c = b ^^^ c) : a = b := by
  apply UInt8.eq_of_toBitVec_eq
  have h' : a.toBitVec ^^^ c.toBitVec = b.toBitVec ^^^ c.toBitVec := congrArg UInt8.toBitVec h
  have := congrArg (fun x => x ^^^ c.toBitVec) h'
  simpa [BitVec.xor_assoc] using this

theorem map_xor_inj (c : UInt8) (k₁ k₂ : List UInt8)
    (h : k₁.map (fun b => b ^^^ c) = k₂.map (fun b => b ^^^ c)) : k₁ = k₂ :=
  List.map_injective_iff.mpr (fun a b hab => xor_const_inj c a b hab) h

theorem hmacSum_eq_last (key data : List UInt8) :
    (hmacMessages key data).map Sha256.Sum256 =
      [Sha256.Sum256 ((hmacKeyBlock key).map (fun b => b ^^^ 0x36) ++ data),
        hmacSum key data] := rfl

theorem hmacSum_congr_keyBlock (k₁ k₂ data : List UInt8)
    (h : hmacKeyBlock k₁ = hmacKeyBlock k₂) : hmacSum k₁ data = hmacSum k₂ data := by
  simp only [hmacSum, h]

theorem hmac_step (k₁ k₂ d₁ d₂ : List UInt8) (h : hmacSum k₁ d₁ = hmacSum k₂ d₂) :
    (hmacKeyBlock k₁ = hmacKeyBlock k₂ ∧ d₁ = d₂) ∨
      CollisionBetween (hmacMessages k₁ d₁) (hmacMessages k₂ d₂) := by
  by_cases hout : (hmacKeyBlock k₁).map (fun b => b ^^^ 0x5c) ++
        Sha256.Sum256 ((hmacKeyBlock k₁).map (fun b => b ^^^ 0x36) ++ d₁) =
      (hmacKeyBlock k₂).map (fun b => b ^^^ 0x5c) ++
        Sha256.Sum256 ((hmacKeyBlock k₂).map (fun b => b ^^^ 0x36) ++ d₂)
  · have hl : ((hmacKeyBlock k₁).map (fun b => b ^^^ 0x5c)).length =
        ((hmacKeyBlock k₂).map (fun b => b ^^^ 0x5c)).length := by
      simp [length_hmacKeyBlock]
    obtain ⟨ho, hi⟩ := List.append_inj hout hl
    have hkb := map_xor_inj _ _ _ ho
    by_cases hin : (hmacKeyBlock k₁).map (fun b => b ^^^ 0x36) ++ d₁ =
        (hmacKeyBlock k₂).map (fun b => b ^^^ 0x36) ++ d₂
    · rw [hkb] at hin
      exact Or.inl ⟨hkb, List.append_cancel_left hin⟩
    · exact Or.inr ⟨(_, _), by simp [hmacMessages], hin, hi⟩
  · exact Or.inr ⟨(_, _), by simp [hmacMessages], hout, h⟩

theorem collision_append_left (a₁ a₂ b₁ b₂ : List (List UInt8)) (hl : a₁.length = a₂.length)
    (h : CollisionBetween a₁ a₂) : CollisionBetween (a₁ ++ b₁) (a₂ ++ b₂) := by
  obtain ⟨ab, hm, hc⟩ := h
  exact ⟨ab, by rw [List.zip_append hl]; exact List.mem_append_left _ hm, hc⟩

theorem collision_append_right (a₁ a₂ b₁ b₂ : List (List UInt8)) (hl : a₁.length = a₂.length)
    (h : CollisionBetween b₁ b₂) : CollisionBetween (a₁ ++ b₁) (a₂ ++ b₂) := by
  obtain ⟨ab, hm, hc⟩ := h
  exact ⟨ab, by rw [List.zip_append hl]; exact List.mem_append_right _ hm, hc⟩

theorem hmacSum_key_inj_of_length_32 (k₁ k₂ : List UInt8) (h₁ : k₁.length = 32)
    (h₂ : k₂.length = 32) (h : hmacKeyBlock k₁ = hmacKeyBlock k₂) : k₁ = k₂ := by
  rw [hmacKeyBlock_of_length_32 k₁ h₁, hmacKeyBlock_of_length_32 k₂ h₂] at h
  exact List.append_cancel_right h

theorem getSigningKey_step (s₁ s₂ date region service : String)
    (h : getSigningKey s₁ date region service = getSigningKey s₂ date region service) :
    hmacKeyBlock (bytesOf ("AWS4" ++ s₁)) = hmacKeyBlock (bytesOf ("AWS4" ++ s₂)) ∨
      CollisionBetween (signingKeyMessages s₁ date region service)
        (signingKeyMessages s₂ date region service) := by
  simp only [getSigningKey, hmacSHA256] at h
  simp only [signingKeyMessages, hmacSHA256]
  have l2 : ∀ k₁ k₂ d₁ d₂ : List UInt8,
      (hmacMessages k₁ d₁).length = (hmacMessages k₂ d₂).length := fun _ _ _ _ => rfl
  rcases hmac_step _ _ _ _ h with ⟨hk4, _⟩ | hc
  · have h3 := hmacSum_key_inj_of_length_32 _ _ (length_hmacSum _ _) (length_hmacSum _ _) hk4
    rcases hmac_step _ _ _ _ h3 with ⟨hk3, _⟩ | hc
    · have h2 := hmacSum_key_inj_of_length_32 _ _ (length_hmacSum _ _) (length_hmacSum _ _) hk3
      rcases hmac_step _ _ _ _ h2 with ⟨hk2, _⟩ | hc
      · have h1 := hmacSum_key_inj_of_length_32 _ _ (length_hmacSum _ _) (length_hmacSum _ _)
          hk2
        rcases hmac_step _ _ _ _ h1 with ⟨hk1, _⟩ | hc
        · exact Or.inl hk1
        · exact Or.inr (collision_append_left _ _ _ _ (l2 _ _ _ _) hc)
      · exact Or.inr (collision_append_right _ _ _ _ (l2 _ _ _ _)
          (collision_append_left _ _ _ _ (l2 _ _ _ _) hc))
    · exact Or.inr (collision_append_right _ _ _ _ (l2 _ _ _ _)
        (collision_append_right _ _ _ _ (l2 _ _ _ _)
          (collision_append_left _ _ _ _ (l2 _ _ _ _) hc)))
  · exact Or.inr (collision_append_right _ _ _ _ (l2 _ _ _ _)
      (collision_append_right _ _ _ _ (l2 _ _ _ _)
        (collision_append_right _ _ _ _ (l2 _ _ _ _) hc)))

theorem length_signingKeyMessages (s date region service : String) :
    (signingKeyMessages s date region service).length = 8 := rfl

/-! ## Signatures and the signed inputs -/

theorem locals_signingKey (p : Plugin) (now : Time) (r : Request) :
    (ServeHTTP.locals p now r).signingKey =
      getSigningKey p.SecretKey (dateStampOf now) p.Region p.Service := rfl

theorem length_getSigningKey (secretKey date region service : String) :
    (getSigningKey secretKey date region service).length = 32 := by
  simp only [getSigningKey, hmacSHA256, length_hmacSum]

theorem hashedMessages_eq (p : Plugin) (now : Time) (r : Request) :
    hashedMessages p now r =
      [bodyBytes r.Body, bytesOf (ServeHTTP.locals p now r).canonicalRequest] ++
        (signingKeyMessages p.SecretKey (dateStampOf now) p.Region p.Service ++
          hmacMessages (getSigningKey p.SecretKey (dateStampOf now) p.Region p.Service)
            (bytesOf (ServeHTTP.locals p now r).stringToSign)) := by
  rw [hashedMessages, locals_payload, locals_signingKey, locals_dateStamp]

theorem signature_eq_imp (p₁ p₂ : Plugin) (now : Time) (r₁ r₂ : Request)
    (hRegion : p₁.Region = p₂.Region) (hService : p₁.Service = p₂.Service)
    (h : (ServeHTTP.locals p₁ now r₁).signature = (ServeHTTP.locals p₂ now r₂).signature) :
    (hmacKeyBlock (bytesOf ("AWS4" ++ p₁.SecretKey)) =
        hmacKeyBlock (bytesOf ("AWS4" ++ p₂.SecretKey)) ∧
      (ServeHTTP.locals p₁ now r₁).canonicalRequest =
        (ServeHTTP.locals p₂ now r₂).canonicalRequest) ∨
    CollisionBetween (hashedMessages p₁ now r₁) (hashedMessages p₂ now r₂) := by
  have l2 : ∀ a b c d : List UInt8, [a, b].length = [c, d].length := fun _ _ _ _ => rfl
  have l8 : ∀ s₁ s₂ d rg sv : String, (signingKeyMessages s₁ d rg sv).length =
      (signingKeyMessages s₂ d rg sv).length := fun _ _ _ _ _ => by
    rw [length_signingKeyMessages, length_signingKeyMessages]
  rw [hashedMessages_eq, hashedMessages_eq]
  rw [locals_signature, locals_signature] at h
  rw [← hRegion, ← hService] at h ⊢
  have hh := hexEncodeToString_inj _ _ h
  rcases hmac_step _ _ _ _ hh with ⟨hkb, hd⟩ | hc
  · have hK := hmacSum_key_inj_of_length_32 _ _ (length_getSigningKey _ _ _ _)
      (length_getSigningKey _ _ _ _) hkb
    have hsts := bytesOf_inj _ _ hd
    rcases getSigningKey_step _ _ _ _ _ hK with hkey | hc
    · rw [locals_stringToSign, locals_stringToSign, locals_credentialScope,
        locals_credentialScope, ← hRegion, ← hService] at hsts
      have hhex := hexEncodeToString_inj _ _ (string_append_cancel_left _ _ _ hsts)
      by_cases hcc : (ServeHTTP.locals p₁ now r₁).canonicalRequest =
          (ServeHTTP.locals p₂ now r₂).canonicalRequest
      · exact Or.inl ⟨hkey, hcc⟩
      · exact Or.inr ⟨(bytesOf (ServeHTTP.locals p₁ now r₁).canonicalRequest,
            bytesOf (ServeHTTP.locals p₂ now r₂).canonicalRequest),
          List.mem_cons_of_mem _ (List.mem_cons_self _ _),
          fun e => hcc (bytesOf_inj _ _ e), hhex⟩
    · exact Or.inr (collision_append_right _ _ _ _ (l2 _ _ _ _)
        (collision_append_left _ _ _ _ (l8 _ _ _ _ _) hc))
  · exact Or.inr (collision_append_right _ _ _ _ (l2 _ _ _ _)
      (collision_append_right _ _ _ _ (l8 _ _ _ _ _) hc))

theorem signature_congr_keyBlock (p₁ p₂ : Plugin) (now : Time) (r : Request)
    (hRegion : p₁.Region = p₂.Region) (hService : p₁.Service = p₂.Service)
    (hEndpoint : p₁.Endpoint = p₂.Endpoint) (hToken : p₁.SessionToken = p₂.SessionToken)
    (hKey : hmacKeyBlock (bytesOf ("AWS4" ++ p₁.SecretKey)) =
      hmacKeyBlock (bytesOf ("AWS4" ++ p₂.SecretKey))) :
    (ServeHTTP.locals p₁ now r).signature = (ServeHTTP.locals p₂ now r).signature := by
  have hc : (ServeHTTP.locals p₁ now r).canonicalRequest =
      (ServeHTTP.locals p₂ now r).canonicalRequest := by
    rw [locals_canonicalRequest, locals_canonicalRequest, locals_canonicalHeaders,
      locals_canonicalHeaders, locals_signedHeaders, locals_signedHeaders, hEndpoint, hToken]
  have hs : (ServeHTTP.locals p₁ now r).stringToSign =
      (ServeHTTP.locals p₂ now r).stringToSign := by
    rw [locals_stringToSign, locals_stringToSign, locals_credentialScope,
      locals_credentialScope, hc, hRegion, hService]
  have hk : getSigningKey p₁.SecretKey (dateStampOf now) p₁.Region p₁.Service =
      getSigningKey p₂.SecretKey (dateStampOf now) p₂.Region p₂.Service := by
    simp only [getSigningKey, hmacSHA256, hRegion, hService,
      hmacSum_congr_keyBlock _ _ _ hKey]
  rw [locals_signature, locals_signature, hs, hk]

/-! ## The claims -/

/-- C1, counterexample: on a request whose body read fails after the two
bytes of `hi` were read, `ServeHTTP` does not abort.  The read reports an
error, yet the next handler receives the request with headers that were
absent on entry: the hash of the two bytes that were read, and a signature
computed over them. -/
theorem C1_failed_read_is_signed_and_forwarded :
    bodyError failingReq.Body = some "unexpected EOF" ∧
    failingReq.Header "X-Amz-Content-Sha256" = none ∧
    failingReq.Header "Authorization" = none ∧
    (ServeHTTP demoPlugin demoTime NewRecorder failingReq).2.Header "X-Amz-Content-Sha256" =
      some ["8f434346648f6b96df89dda901c5176b10a6d83961dd3c1ac88b59b2dc327aa4"] ∧
    (ServeHTTP demoPlugin demoTime NewRecorder failingReq).2.Header "Authorization" =
      some ["AWS4-HMAC-SHA256 Credential=AKIDEXAMPLE/20240101/us-east-1/lambda/aws4_request, " ++
        "SignedHeaders=host;x-amz-date, " ++
        "Signature=1fc584fe964c30f3702821883b1df63fca21f7c5114c3fb3fa3be1eeb64c3aa5"] ∧
    (ServeHTTP demoPlugin demoTime NewRecorder failingReq).2.Header ≠ failingReq.Header := by
  refine ⟨by decide, by decide, by decide, by decide, by decide, fun h => ?_⟩
  have h1 : (ServeHTTP demoPlugin demoTime NewRecorder failingReq).2.Header "X-Amz-Date" =
      some [amzDateOf demoTime] := by
    show (ServeHTTP.locals demoPlugin demoTime failingReq).r.Header "X-Amz-Date" = _
    rw [locals_header]
    decide
  rw [h] at h1
  exact absurd h1 (by decide)

/-- C1, amended: when the body read fails with an error after some bytes
were read, `ServeHTTP` discards the error.  The payload is the bytes read
before the failure, their hash and the signature computed with it are written
to the headers, the body is replaced by a reader of those bytes, and the next
handler is called with that request: the outcome is the one of a request
whose body is exactly the bytes that were read. -/
theorem C1_read_error_is_discarded (p : Plugin) (now : Time) (w : ResponseRecorder)
    (r : Request) (body : Reader) (e : String)
    (hb : r.Body = some body) (he : (ReadAll body).2 = some e) :
    (ServeHTTP.locals p now r).readErr = some e ∧
    (ServeHTTP.locals p now r).payload = (ReadAll body).1 ∧
    (ServeHTTP.locals p now r).r.Header "X-Amz-Content-Sha256" =
      some [hexEncodeToString (Sha256.Sum256 (ReadAll body).1)] ∧
    (ServeHTTP.locals p now r).r.Header "Authorization" =
      some [(ServeHTTP.locals p now r).authorization] ∧
    (ServeHTTP.locals p now r).r.Body = some (NewBuffer (ReadAll body).1) ∧
    ServeHTTP p now w r = p.next w (ServeHTTP.locals p now r).r ∧
    ServeHTTP p now w r =
      ServeHTTP p now w { r with Body := some (NewBuffer (ReadAll body).1) } := by
  refine ⟨?_, ?_, ?_, ?_, ?_, rfl, ?_⟩
  · rw [locals_readErr, hb]; exact he
  · rw [locals_payload, hb]; rfl
  · rw [locals_header, hb]; simp [bodyBytes]
  · rw [locals_header]; simp
  · rw [locals_body, hb]
  · have hr : ReadAll (NewBuffer (ReadAll body).1) = ((ReadAll body).1, none) := by
      simp [ReadAll, NewBuffer, readAllLoop]
    simp only [ServeHTTP, ServeHTTP.locals, hb, hr]

/-- C1, witness: the amended statement at the request whose body read fails
after two bytes. -/
theorem C1_read_error_is_discarded_witness :
    failingReq.Body = some failingBody ∧
    (ReadAll failingBody).2 = some "unexpected EOF" ∧
    (ServeHTTP.locals demoPlugin demoTime failingReq).payload = [0x68, 0x69] ∧
    ServeHTTP demoPlugin demoTime NewRecorder failingReq =
      ServeHTTP demoPlugin demoTime NewRecorder
        { failingReq with Body := some (NewBuffer [0x68, 0x69]) } :=
  ⟨rfl, rfl,
   (C1_read_error_is_discarded demoPlugin demoTime NewRecorder failingReq failingBody
      "unexpected EOF" rfl rfl).2.1,
   (C1_read_error_is_discarded demoPlugin demoTime NewRecorder failingReq failingBody
      "unexpected EOF" rfl rfl).2.2.2.2.2.2⟩

/-- C2: the canonical request of `ServeHTTP` is the method, the path, the raw
query, the canonical headers, the signed-header names and the hex SHA-256 of
the body bytes, joined by line feeds, with path and raw query used as they
are; the hash that ends the string-to-sign is the SHA-256 of that string. -/
theorem C2_canonical_request (p : Plugin) (now : Time) (r : Request) :
    (ServeHTTP.locals p now r).canonicalRequest =
      r.Method ++ "\n" ++ r.Path ++ "\n" ++ r.RawQuery ++ "\n" ++
        (ServeHTTP.locals p now r).canonicalHeaders ++ "\n" ++
        (ServeHTTP.locals p now r).signedHeaders ++ "\n" ++
        hexEncodeToString (Sha256.Sum256 (bodyBytes r.Body)) ∧
    (ServeHTTP.locals p now r).canonicalRequestHash =
      Sha256.Sum256 (bytesOf (ServeHTTP.locals p now r).canonicalRequest) ∧
    (ServeHTTP.locals p now r).stringToSign =
      "AWS4-HMAC-SHA256" ++ "\n" ++ amzDateOf now ++ "\n" ++
        (ServeHTTP.locals p now r).credentialScope ++ "\n" ++
        hexEncodeToString (ServeHTTP.locals p now r).canonicalRequestHash :=
  ⟨locals_canonicalRequest p now r, rfl, locals_stringToSign p now r⟩

/-- C3: the canonical-headers block is `host:<Endpoint>\nx-amz-date:<timestamp>\n`
and the signed-header list is `host;x-amz-date` without a session token; with
a session token the block is followed by `x-amz-security-token:<token>\n` and
the list is `host;x-amz-date;x-amz-security-token`.  The host is the
configured endpoint: the block is the same whatever the request's own host. -/
theorem C3_canonical_headers (p : Plugin) (now : Time) (r : Request) :
    (ServeHTTP.locals p now r).canonicalHeaders =
      (match p.SessionToken with
       | none => "host:" ++ p.Endpoint ++ "\nx-amz-date:" ++ amzDateOf now ++ "\n"
       | some token => "host:" ++ p.Endpoint ++ "\nx-amz-date:" ++ amzDateOf now ++ "\n" ++
          ("x-amz-security-token:" ++ token ++ "\n")) ∧
    (ServeHTTP.locals p now r).signedHeaders =
      (match p.SessionToken with
       | none => "host;x-amz-date"
       | some _ => "host;x-amz-date;x-amz-security-token") ∧
    (ServeHTTP.locals p now r).host = p.Endpoint ∧
    ∀ host : String,
      (ServeHTTP.locals p now { r with Host := host }).canonicalHeaders =
        (ServeHTTP.locals p now r).canonicalHeaders := by
  refine ⟨locals_canonicalHeaders p now r, locals_signedHeaders p now r, rfl, fun host => ?_⟩
  rw [locals_canonicalHeaders, locals_canonicalHeaders]

/-- C4: `getSigningKey` is the chain of four HMAC-SHA256 rounds keyed by
`AWS4` followed by the secret key, over the date, the region, the service and
`aws4_request`; each round's output is 32 raw bytes and is the key of the next
round as it is. -/
theorem C4_signing_key_chain (secretKey date region service : String) :
    getSigningKey secretKey date region service =
      hmacSum (hmacSum (hmacSum (hmacSum (bytesOf "AWS4" ++ bytesOf secretKey) (bytesOf date))
        (bytesOf region)) (bytesOf service)) (bytesOf "aws4_request") ∧
    (hmacSum (bytesOf "AWS4" ++ bytesOf secretKey) (bytesOf date)).length = 32 ∧
    (hmacSum (hmacSum (bytesOf "AWS4" ++ bytesOf secretKey) (bytesOf date))
      (bytesOf region)).length = 32 ∧
    (hmacSum (hmacSum (hmacSum (bytesOf "AWS4" ++ bytesOf secretKey) (bytesOf date))
      (bytesOf region)) (bytesOf service)).length = 32 ∧
    (getSigningKey secretKey date region service).length = 32 := by
  refine ⟨?_, length_hmacSum _ _, length_hmacSum _ _, length_hmacSum _ _, ?_⟩
  · simp only [getSigningKey, hmacSHA256, bytesOf_append]
  · simp only [getSigningKey, hmacSHA256, length_hmacSum]

/-- C5: the string-to-sign is `AWS4-HMAC-SHA256`, the timestamp, the
credential scope and the hex SHA-256 of the canonical request, joined by line
feeds; the credential scope is `dateStamp/region/service/aws4_request`; the
signature is the hex HMAC-SHA256 of the string-to-sign under the signing key
derived from the same date stamp, region and service. -/
theorem C5_string_to_sign_and_signature (p : Plugin) (now : Time) (r : Request) :
    (ServeHTTP.locals p now r).stringToSign =
      "AWS4-HMAC-SHA256" ++ "\n" ++ amzDateOf now ++ "\n" ++
        (ServeHTTP.locals p now r).credentialScope ++ "\n" ++
        hexEncodeToString (Sha256.Sum256 (bytesOf (ServeHTTP.locals p now r).canonicalRequest)) ∧
    (ServeHTTP.locals p now r).credentialScope =
      dateStampOf now ++ "/" ++ p.Region ++ "/" ++ p.Service ++ "/aws4_request" ∧
    (ServeHTTP.locals p now r).signature =
      hexEncodeToString (hmacSum (getSigningKey p.SecretKey (dateStampOf now) p.Region p.Service)
        (bytesOf (ServeHTTP.locals p now r).stringToSign)) :=
  ⟨locals_stringToSign p now r, locals_credentialScope p now r, locals_signature p now r⟩

/-- C6: the request handed to the next handler carries, as the only value of
`Authorization`, the text `AWS4-HMAC-SHA256 Credential=<accessKey>/<scope>,
SignedHeaders=<names>, Signature=<signature>`, where the scope is the one of
the string-to-sign and the names are those of the canonical request. -/
theorem C6_authorization_header (p : Plugin) (now : Time) (w : ResponseRecorder)
    (r : Request) :
    ServeHTTP p now w r = p.next w (ServeHTTP.locals p now r).r ∧
    (ServeHTTP.locals p now r).r.Header "Authorization" =
      some ["AWS4-HMAC-SHA256 Credential=" ++ p.AccessKey ++ "/" ++
        (ServeHTTP.locals p now r).credentialScope ++ ", SignedHeaders=" ++
        (ServeHTTP.locals p now r).signedHeaders ++ ", Signature=" ++
        (ServeHTTP.locals p now r).signature] ∧
    (ServeHTTP.locals p now r).stringToSign =
      "AWS4-HMAC-SHA256" ++ "\n" ++ amzDateOf now ++ "\n" ++
        (ServeHTTP.locals p now r).credentialScope ++ "\n" ++
        hexEncodeToString (Sha256.Sum256 (bytesOf (ServeHTTP.locals p now r).canonicalRequest)) ∧
    (ServeHTTP.locals p now r).canonicalRequest =
      r.Method ++ "\n" ++ r.Path ++ "\n" ++ r.RawQuery ++ "\n" ++
        (ServeHTTP.locals p now r).canonicalHeaders ++ "\n" ++
        (ServeHTTP.locals p now r).signedHeaders ++ "\n" ++
        hexEncodeToString (Sha256.Sum256 (bodyBytes r.Body)) := by
  refine ⟨rfl, ?_, locals_stringToSign p now r, locals_canonicalRequest p now r⟩
  rw [locals_header, locals_authorization]
  simp only [if_true]
  have : "AWS4-HMAC-SHA256" ++ " Credential=" = "AWS4-HMAC-SHA256 Credential=" := by decide
  rw [this]

/-- C7: the bytes that the next handler reads from the body of the request it
receives are the bytes of the original body, the read of that body ends
without an error, and the payload hash, which is the value of
`X-Amz-Content-Sha256` and the end of the canonical request, is the hex
SHA-256 of exactly those bytes. -/
theorem C7_body_preserved (p : Plugin) (now : Time) (w : ResponseRecorder) (r : Request) :
    ServeHTTP p now w r = p.next w (ServeHTTP.locals p now r).r ∧
    bodyBytes (ServeHTTP.locals p now r).r.Body = bodyBytes r.Body ∧
    bodyError (ServeHTTP.locals p now r).r.Body = none ∧
    (ServeHTTP.locals p now r).r.Header "X-Amz-Content-Sha256" =
      some [hexEncodeToString (Sha256.Sum256 (bodyBytes r.Body))] ∧
    (ServeHTTP.locals p now r).canonicalRequest =
      (r.Method ++ "\n" ++ r.Path ++ "\n" ++ r.RawQuery ++ "\n" ++
        (ServeHTTP.locals p now r).canonicalHeaders ++ "\n" ++
        (ServeHTTP.locals p now r).signedHeaders) ++ "\n" ++
        hexEncodeToString (Sha256.Sum256 (bodyBytes r.Body)) := by
  refine ⟨rfl, ?_, ?_, ?_, locals_canonicalRequest p now r⟩
  · rw [locals_body]
    cases h : r.Body
    · rfl
    · simp [bodyBytes, ReadAll, NewBuffer, readAllLoop]
  · rw [locals_body]
    cases h : r.Body
    · rfl
    · simp [bodyError, ReadAll, NewBuffer]
  · rw [locals_header]
    simp

/-- C8: on the request handed to the next handler, every header key other
than `X-Amz-Date`, `X-Amz-Content-Sha256`, `Authorization` and, when a
session token is configured, `X-Amz-Security-Token` keeps exactly its inbound
values, and the method, the path and the raw query are unchanged. -/
theorem C8_only_signing_headers_change (p : Plugin) (now : Time) (w : ResponseRecorder)
    (r : Request) (k : String)
    (hDate : k ≠ "X-Amz-Date") (hSha : k ≠ "X-Amz-Content-Sha256")
    (hAuth : k ≠ "Authorization")
    (hTok : k ≠ "X-Amz-Security-Token" ∨ p.SessionToken = none) :
    ServeHTTP p now w r = p.next w (ServeHTTP.locals p now r).r ∧
    (ServeHTTP.locals p now r).r.Header k = r.Header k ∧
    (ServeHTTP.locals p now r).r.Method = r.Method ∧
    (ServeHTTP.locals p now r).r.Path = r.Path ∧
    (ServeHTTP.locals p now r).r.RawQuery = r.RawQuery := by
  refine ⟨rfl, ?_, (locals_frame p now r).1, (locals_frame p now r).2.2.1,
    (locals_frame p now r).2.2.2⟩
  rw [locals_header]
  simp only [hDate, hSha, hAuth, if_false]
  rcases hTok with hTok | hTok
  · cases p.SessionToken <;> simp [hTok]
  · simp [hTok]

/-- C8, witness: the header `Content-Type` of a request with a body, signed
without a session token. -/
theorem C8_only_signing_headers_change_witness :
    ("Content-Type" ≠ "X-Amz-Date" ∧ "Content-Type" ≠ "X-Amz-Content-Sha256" ∧
      "Content-Type" ≠ "Authorization" ∧ "Content-Type" ≠ "X-Amz-Security-Token") ∧
    (ServeHTTP.locals demoPlugin demoTime demoReq).r.Header "Content-Type" =
      some ["text/plain"] :=
  ⟨by decide,
   (C8_only_signing_headers_change demoPlugin demoTime NewRecorder demoReq "Content-Type"
      (by decide) (by decide) (by decide) (Or.inl (by decide))).2.1⟩

/-- C9: whatever the inbound values of the four headers were, on the request
handed to the next handler `X-Amz-Date` has the timestamp as its only value,
`X-Amz-Content-Sha256` the hex SHA-256 of the body, `Authorization` the
computed header and, when a session token is configured,
`X-Amz-Security-Token` the token. -/
theorem C9_signing_headers_overwritten (p : Plugin) (now : Time) (w : ResponseRecorder)
    (r : Request) :
    ServeHTTP p now w r = p.next w (ServeHTTP.locals p now r).r ∧
    (ServeHTTP.locals p now r).r.Header "X-Amz-Date" = some [amzDateOf now] ∧
    (ServeHTTP.locals p now r).r.Header "X-Amz-Content-Sha256" =
      some [hexEncodeToString (Sha256.Sum256 (bodyBytes r.Body))] ∧
    (ServeHTTP.locals p now r).r.Header "Authorization" =
      some [(ServeHTTP.locals p now r).authorization] ∧
    (match p.SessionToken with
     | some token => (ServeHTTP.locals p now r).r.Header "X-Amz-Security-Token" = some [token]
     | none => True) := by
  refine ⟨rfl, ?_, ?_, ?_, ?_⟩
  · rw [locals_header]; simp
  · rw [locals_header]; simp
  · rw [locals_header]; simp
  · cases h : p.SessionToken with
    | none => trivial
    | some token =>
      show (ServeHTTP.locals p now r).r.Header "X-Amz-Security-Token" = some [token]
      rw [locals_header]; simp [h]

/-- C10, counterexample: without a session token, a request that arrives with
an `X-Amz-Security-Token` header is handed to the next handler with that
header still on it. -/
theorem C10_inbound_token_header_survives :
    demoPlugin.SessionToken = none ∧
    (ServeHTTP demoPlugin demoTime NewRecorder staleTokenReq).2.Header "X-Amz-Security-Token" =
      some ["stale"] := by
  refine ⟨rfl, ?_⟩
  show (ServeHTTP.locals demoPlugin demoTime staleTokenReq).r.Header "X-Amz-Security-Token" = _
  rw [locals_header]
  decide

/-- C10, amended: with a session token that has no line feed in it, compared
with signing the same request without a token, the canonical-headers block
has exactly one more line, `x-amz-security-token:<token>`, the signed-header
list has exactly one more entry, `x-amz-security-token`, and the request
handed to the next handler carries `X-Amz-Security-Token` with the token as
its only value.  Without a session token and with an endpoint that has no
line feed in it, the block is the two lines of `host` and `x-amz-date`, none
of them an `x-amz-security-token` line, the list has no `x-amz-security-token`
entry, and `ServeHTTP` leaves the header `X-Amz-Security-Token` as it was
inbound. -/
theorem C10_session_token_conditionality (p : Plugin) (now : Time) (r : Request)
    (hFeed : match p.SessionToken with
      | some token => '\n' ∉ token.data
      | none => '\n' ∉ p.Endpoint.data) :
    match p.SessionToken with
    | some token =>
      headerLines (ServeHTTP.locals p now r).canonicalHeaders =
        headerLines (ServeHTTP.locals { p with SessionToken := none } now r).canonicalHeaders ++
          ["x-amz-security-token:" ++ token] ∧
      signedEntries (ServeHTTP.locals p now r).signedHeaders =
        signedEntries (ServeHTTP.locals { p with SessionToken := none } now r).signedHeaders ++
          ["x-amz-security-token"] ∧
      (ServeHTTP.locals p now r).r.Header "X-Amz-Security-Token" = some [token]
    | none =>
      headerLines (ServeHTTP.locals p now r).canonicalHeaders =
        ["host:" ++ p.Endpoint, "x-amz-date:" ++ amzDateOf now] ∧
      (∀ l ∈ headerLines (ServeHTTP.locals p now r).canonicalHeaders,
        ¬ "x-amz-security-token:".data <+: l.data) ∧
      "x-amz-security-token" ∉ signedEntries (ServeHTTP.locals p now r).signedHeaders ∧
      (ServeHTTP.locals p now r).r.Header "X-Amz-Security-Token" =
        r.Header "X-Amz-Security-Token" := by
  have hlines : ∀ t : String, '\n' ∉ p.Endpoint.data → '\n' ∉ t.data →
      headerLines ("host:" ++ p.Endpoint ++ "\nx-amz-date:" ++ t ++ "\n") =
        ["host:" ++ p.Endpoint, "x-amz-date:" ++ t] := by
    intro t hEndpoint ht
    have h1 : '\n' ∉ ("host:" ++ p.Endpoint).data := by
      simp only [String.data_append, List.mem_append, not_or]
      exact ⟨by decide, hEndpoint⟩
    have h2 : '\n' ∉ ("x-amz-date:" ++ t).data := by
      simp only [String.data_append, List.mem_append, not_or]
      exact ⟨by decide, ht⟩
    rw [← string_eta ("host:" ++ p.Endpoint ++ "\nx-amz-date:" ++ t ++ "\n"),
      canonicalHeaders_data_none, headerLines_cons_line _ _ h1, headerLines_cons_line _ _ h2,
      headerLines_nil]
  cases h : p.SessionToken with
  | none =>
    rw [h] at hFeed
    have hb : (ServeHTTP.locals p now r).canonicalHeaders =
        "host:" ++ p.Endpoint ++ "\nx-amz-date:" ++ amzDateOf now ++ "\n" := by
      rw [locals_canonicalHeaders, h]
    have hs : (ServeHTTP.locals p now r).signedHeaders = "host;x-amz-date" := by
      rw [locals_signedHeaders, h]
    refine ⟨?_, ?_, ?_, ?_⟩
    · rw [hb, hlines _ hFeed (amzDateOf_no_newline now)]
    · rw [hb, hlines _ hFeed (amzDateOf_no_newline now)]
      intro l hl
      simp only [List.mem_cons, List.mem_singleton, List.not_mem_nil, or_false] at hl
      rcases hl with rfl | rfl
      · simp [String.data_append]
      · simp [String.data_append]
    · rw [hs]; decide
    · rw [locals_header, h]; simp
  | some token =>
    rw [h] at hFeed
    have hb : (ServeHTTP.locals p now r).canonicalHeaders =
        "host:" ++ p.Endpoint ++ "\nx-amz-date:" ++ amzDateOf now ++ "\n" ++
          ("x-amz-security-token:" ++ token ++ "\n") := by
      rw [locals_canonicalHeaders, h]
    have hb' : (ServeHTTP.locals { p with SessionToken := none } now r).canonicalHeaders =
        "host:" ++ p.Endpoint ++ "\nx-amz-date:" ++ amzDateOf now ++ "\n" := by
      rw [locals_canonicalHeaders]
    have hs : (ServeHTTP.locals p now r).signedHeaders =
        "host;x-amz-date;x-amz-security-token" := by
      rw [locals_signedHeaders, h]
    have hs' : (ServeHTTP.locals { p with SessionToken := none } now r).signedHeaders =
        "host;x-amz-date" := by
      rw [locals_signedHeaders]
    have h3 : '\n' ∉ ("x-amz-security-token:" ++ token).data := by
      simp only [String.data_append, List.mem_append, not_or]
      exact ⟨by decide, hFeed⟩
    refine ⟨?_, ?_, ?_⟩
    · rw [hb, hb', ← string_eta ("host:" ++ p.Endpoint ++ "\nx-amz-date:" ++ amzDateOf now ++
          "\n" ++ ("x-amz-security-token:" ++ token ++ "\n")),
        canonicalHeaders_data_some, headerLines_append_line, headerLines_cons_line _ _ h3,
        headerLines_nil,
        ← string_eta ("host:" ++ p.Endpoint ++ "\nx-amz-date:" ++ amzDateOf now ++ "\n"),
        canonicalHeaders_data_none', headerLines_append_line, headerLines_nil, string_eta,
        List.append_nil]
    · rw [hs, hs']; decide
    · rw [locals_header, h]; simp

/-- C10, witness: the amended statement at a plugin with the session token
`TOKEN`, and at a plugin without a session token on a request that arrives
with an `X-Amz-Security-Token` header. -/
theorem C10_session_token_conditionality_witness :
    ('\n' ∉ "TOKEN".data ∧ '\n' ∉ demoPlugin.Endpoint.data) ∧
    (headerLines (ServeHTTP.locals tokenPlugin demoTime demoReq).canonicalHeaders =
        headerLines (ServeHTTP.locals { tokenPlugin with SessionToken := none }
          demoTime demoReq).canonicalHeaders ++ ["x-amz-security-token:" ++ "TOKEN"] ∧
      signedEntries (ServeHTTP.locals tokenPlugin demoTime demoReq).signedHeaders =
        signedEntries (ServeHTTP.locals { tokenPlugin with SessionToken := none }
          demoTime demoReq).signedHeaders ++ ["x-amz-security-token"] ∧
      (ServeHTTP.locals tokenPlugin demoTime demoReq).r.Header "X-Amz-Security-Token" =
        some ["TOKEN"]) ∧
    (ServeHTTP.locals demoPlugin demoTime staleTokenReq).r.Header "X-Amz-Security-Token" =
      staleTokenReq.Header "X-Amz-Security-Token" :=
  ⟨by decide,
   C10_session_token_conditionality tokenPlugin demoTime demoReq
     (by decide : '\n' ∉ "TOKEN".data),
   (C10_session_token_conditionality demoPlugin demoTime staleTokenReq
     (by decide : '\n' ∉ demoPlugin.Endpoint.data)).2.2.2⟩

/-- C11, counterexample: with the endpoint `example.org`, a line feed and
`x-injected:1`, the canonical-headers block has three lines, named `host`,
`x-injected` and `x-amz-date`, while the signed-header list has the two
entries `host` and `x-amz-date`. -/
theorem C11_endpoint_line_feed_adds_a_line :
    (headerLines (ServeHTTP.locals injectedPlugin demoTime healthReq).canonicalHeaders).map
        lineName = ["host", "x-injected", "x-amz-date"] ∧
    signedEntries (ServeHTTP.locals injectedPlugin demoTime healthReq).signedHeaders =
      ["host", "x-amz-date"] := by
  rw [locals_canonicalHeaders, locals_signedHeaders]
  decide

/-- C11, amended: when neither the endpoint nor the session token, if one is
configured, has a line feed in it, the names of the lines of the
canonical-headers block, in order, are exactly the entries of the
signed-header list, in order; this list is the `SignedHeaders` value of the
`Authorization` header that is set on the request. -/
theorem C11_header_names_match_signed_list (p : Plugin) (now : Time) (r : Request)
    (hEndpoint : '\n' ∉ p.Endpoint.data)
    (hToken : match p.SessionToken with
      | some token => '\n' ∉ token.data
      | none => True) :
    (headerLines (ServeHTTP.locals p now r).canonicalHeaders).map lineName =
      signedEntries (ServeHTTP.locals p now r).signedHeaders ∧
    (ServeHTTP.locals p now r).r.Header "Authorization" =
      some ["AWS4-HMAC-SHA256 Credential=" ++ p.AccessKey ++ "/" ++
        (ServeHTTP.locals p now r).credentialScope ++ ", SignedHeaders=" ++
        (ServeHTTP.locals p now r).signedHeaders ++ ", Signature=" ++
        (ServeHTTP.locals p now r).signature] := by
  constructor
  · rw [locals_canonicalHeaders, locals_signedHeaders]
    cases h : p.SessionToken with
    | none =>
      simp only []
      rw [headerLines_block_none _ _ hEndpoint (amzDateOf_no_newline now)]
      simp only [List.map, lineName_host, lineName_date]
      decide
    | some token =>
      rw [h] at hToken
      simp only []
      rw [headerLines_block_some _ _ _ hEndpoint (amzDateOf_no_newline now) hToken]
      simp only [List.map, lineName_host, lineName_date, lineName_token]
      decide
  · rw [locals_header, locals_authorization]
    simp only [if_true]
    have : "AWS4-HMAC-SHA256" ++ " Credential=" = "AWS4-HMAC-SHA256 Credential=" := by decide
    rw [this]

/-- C11, witness: the amended statement at a plugin with the session token
`TOKEN`. -/
theorem C11_header_names_match_signed_list_witness :
    ('\n' ∉ tokenPlugin.Endpoint.data ∧ '\n' ∉ "TOKEN".data) ∧
    (headerLines (ServeHTTP.locals tokenPlugin demoTime demoReq).canonicalHeaders).map
        lineName =
      signedEntries (ServeHTTP.locals tokenPlugin demoTime demoReq).signedHeaders :=
  ⟨by decide,
   (C11_header_names_match_signed_list tokenPlugin demoTime demoReq (by decide)
      (by decide : '\n' ∉ "TOKEN".data)).1⟩

/-- C12: for a request whose body is nil or delivers no byte, the payload
hash is the lowercase hex of the SHA-256 digest of the empty byte sequence,
`e3b0c442…7852b855`; it is the value of `X-Amz-Content-Sha256` and the last
line of the canonical request. -/
theorem C12_empty_body_hash (p : Plugin) (now : Time) (r : Request)
    (hEmpty : bodyBytes r.Body = []) :
    hexEncodeToString (ServeHTTP.locals p now r).payloadHash =
      "e3b0c44298fc1c149afbf4c8996fb92427ae41e4649b934ca495991b7852b855" ∧
    (ServeHTTP.locals p now r).r.Header "X-Amz-Content-Sha256" =
      some ["e3b0c44298fc1c149afbf4c8996fb92427ae41e4649b934ca495991b7852b855"] ∧
    lastLine (ServeHTTP.locals p now r).canonicalRequest =
      some "e3b0c44298fc1c149afbf4c8996fb92427ae41e4649b934ca495991b7852b855" := by
  have hh : hexEncodeToString (Sha256.Sum256 []) =
      "e3b0c44298fc1c149afbf4c8996fb92427ae41e4649b934ca495991b7852b855" := by decide
  refine ⟨?_, ?_, ?_⟩
  · rw [locals_payloadHash, hEmpty, hh]
  · rw [locals_header, hEmpty, hh]; simp
  · rw [locals_canonicalRequest, hEmpty, hh]
    exact lastLine_append _ _ (by decide)

/-- C12, witness: the request of `TestHandler`, whose body is nil, and a
request whose body is present and delivers no byte. -/
theorem C12_empty_body_hash_witness :
    (bodyBytes healthReq.Body = [] ∧ bodyBytes emptyBodyReq.Body = []) ∧
    (ServeHTTP.locals demoPlugin demoTime healthReq).r.Header "X-Amz-Content-Sha256" =
      some ["e3b0c44298fc1c149afbf4c8996fb92427ae41e4649b934ca495991b7852b855"] ∧
    (ServeHTTP.locals demoPlugin demoTime emptyBodyReq).r.Header "X-Amz-Content-Sha256" =
      some ["e3b0c44298fc1c149afbf4c8996fb92427ae41e4649b934ca495991b7852b855"] :=
  ⟨⟨rfl, rfl⟩,
   (C12_empty_body_hash demoPlugin demoTime healthReq rfl).2.1,
   (C12_empty_body_hash demoPlugin demoTime emptyBodyReq rfl).2.1⟩

/-- C13, counterexample: the secret keys `secret` and `secret` followed by a
NUL character differ, and with every other input the same the two signings
produce the same signature and the same `Authorization` header: HMAC fills a
key shorter than its block with zero bytes. -/
theorem C13_nul_padded_secret_key_same_signature :
    demoPlugin.SecretKey ≠ nulKeyPlugin.SecretKey ∧
    (demoPlugin.AccessKey = nulKeyPlugin.AccessKey ∧ demoPlugin.Region = nulKeyPlugin.Region ∧
      demoPlugin.Service = nulKeyPlugin.Service ∧ demoPlugin.Endpoint = nulKeyPlugin.Endpoint ∧
      demoPlugin.SessionToken = nulKeyPlugin.SessionToken) ∧
    (ServeHTTP.locals demoPlugin demoTime healthReq).signature =
      (ServeHTTP.locals nulKeyPlugin demoTime healthReq).signature ∧
    (ServeHTTP.locals demoPlugin demoTime healthReq).r.Header "Authorization" =
      (ServeHTTP.locals nulKeyPlugin demoTime healthReq).r.Header "Authorization" := by
  have hs := signature_congr_keyBlock demoPlugin nulKeyPlugin demoTime healthReq rfl rfl rfl rfl
    (by decide)
  refine ⟨by decide, ⟨rfl, rfl, rfl, rfl, rfl⟩, hs, ?_⟩
  rw [locals_header, locals_header, locals_authorization, locals_authorization, hs,
    locals_credentialScope, locals_credentialScope, locals_signedHeaders, locals_signedHeaders]
  rfl

/-- C13, amended: with the timestamp frozen and every other input the same,
two signings that differ in exactly one of the method, the path, the raw
query, the payload bytes or the HMAC key block of the secret key (the bytes
of `AWS4` and the key, filled with zero bytes to 64, or their digest when
they are longer) produce different signatures, unless at some step the two
runs give SHA-256 two different messages that have the same digest. -/
theorem C13_signature_sensitivity (p : Plugin) (secretKey₂ : String) (now : Time)
    (r₁ r₂ : Request)
    (hDiff :
      (r₁.Method ≠ r₂.Method ∧ r₁.Path = r₂.Path ∧ r₁.RawQuery = r₂.RawQuery ∧
        bodyBytes r₁.Body = bodyBytes r₂.Body ∧ p.SecretKey = secretKey₂) ∨
      (r₁.Method = r₂.Method ∧ r₁.Path ≠ r₂.Path ∧ r₁.RawQuery = r₂.RawQuery ∧
        bodyBytes r₁.Body = bodyBytes r₂.Body ∧ p.SecretKey = secretKey₂) ∨
      (r₁.Method = r₂.Method ∧ r₁.Path = r₂.Path ∧ r₁.RawQuery ≠ r₂.RawQuery ∧
        bodyBytes r₁.Body = bodyBytes r₂.Body ∧ p.SecretKey = secretKey₂) ∨
      (r₁.Method = r₂.Method ∧ r₁.Path = r₂.Path ∧ r₁.RawQuery = r₂.RawQuery ∧
        bodyBytes r₁.Body ≠ bodyBytes r₂.Body ∧ p.SecretKey = secretKey₂) ∨
      (r₁.Method = r₂.Method ∧ r₁.Path = r₂.Path ∧ r₁.RawQuery = r₂.RawQuery ∧
        bodyBytes r₁.Body = bodyBytes r₂.Body ∧
        hmacKeyBlock (bytesOf ("AWS4" ++ p.SecretKey)) ≠
          hmacKeyBlock (bytesOf ("AWS4" ++ secretKey₂)))) :
    (ServeHTTP.locals p now r₁).signature ≠
        (ServeHTTP.locals { p with SecretKey := secretKey₂ } now r₂).signature ∨
      CollisionBetween (hashedMessages p now r₁)
        (hashedMessages { p with SecretKey := secretKey₂ } now r₂) := by
  by_cases hsig : (ServeHTTP.locals p now r₁).signature =
      (ServeHTTP.locals { p with SecretKey := secretKey₂ } now r₂).signature
  swap
  · exact Or.inl hsig
  right
  rcases signature_eq_imp p { p with SecretKey := secretKey₂ } now r₁ r₂ rfl rfl hsig with
    ⟨hkey, hc⟩ | hcol
  swap
  · exact hcol
  rw [locals_canonicalRequest, locals_canonicalRequest, locals_canonicalHeaders,
    locals_canonicalHeaders, locals_signedHeaders, locals_signedHeaders] at hc
  dsimp only at hc hkey
  rcases hDiff with ⟨hn, hP, hQ, hB, _⟩ | ⟨hM, hn, hQ, hB, _⟩ | ⟨hM, hP, hn, hB, _⟩ |
    ⟨hM, hP, hQ, hn, _⟩ | ⟨_, _, _, _, hn⟩
  · rw [hP, hQ, hB] at hc
    exfalso
    exact hn (string_append_cancel_right _ _ _ (string_append_cancel_right _ _ _
      (string_append_cancel_right _ _ _ (string_append_cancel_right _ _ _
      (string_append_cancel_right _ _ _ (string_append_cancel_right _ _ _
      (string_append_cancel_right _ _ _ (string_append_cancel_right _ _ _
      (string_append_cancel_right _ _ _ (string_append_cancel_right _ _ _ hc))))))))))
  · rw [hM, hQ, hB] at hc
    exfalso
    exact hn (string_append_cancel_left _ _ _
      (string_append_cancel_right _ _ _ (string_append_cancel_right _ _ _
      (string_append_cancel_right _ _ _ (string_append_cancel_right _ _ _
      (string_append_cancel_right _ _ _ (string_append_cancel_right _ _ _
      (string_append_cancel_right _ _ _ (string_append_cancel_right _ _ _ hc)))))))))
  · rw [hM, hP, hB] at hc
    exfalso
    exact hn (string_append_cancel_left _ _ _
      (string_append_cancel_right _ _ _ (string_append_cancel_right _ _ _
      (string_append_cancel_right _ _ _ (string_append_cancel_right _ _ _
      (string_append_cancel_right _ _ _ (string_append_cancel_right _ _ _ hc)))))))
  · rw [hM, hP, hQ] at hc
    have hH := hexEncodeToString_inj _ _ (string_append_cancel_left _ _ _ hc)
    rw [hashedMessages_eq, hashedMessages_eq]
    exact ⟨(bodyBytes r₁.Body, bodyBytes r₂.Body), List.mem_cons_self _ _, hn, hH⟩
  · exact absurd hkey hn

/-- C13, witness: the amended statement at two requests that differ in the
method only. -/
theorem C13_signature_sensitivity_witness :
    (demoReq.Method ≠ "GET" ∧ demoPlugin.SecretKey = "secret") ∧
    ((ServeHTTP.locals demoPlugin demoTime demoReq).signature ≠
        (ServeHTTP.locals { demoPlugin with SecretKey := "secret" } demoTime
          { demoReq with Method := "GET" }).signature ∨
      CollisionBetween (hashedMessages demoPlugin demoTime demoReq)
        (hashedMessages { demoPlugin with SecretKey := "secret" } demoTime
          { demoReq with Method := "GET" })) :=
  ⟨by decide,
   C13_signature_sensitivity demoPlugin "secret" demoTime demoReq { demoReq with Method := "GET" }
     (Or.inl ⟨by decide, rfl, rfl, rfl, rfl⟩)⟩

/-- C14: with one config and one captured instant, two requests that agree on
the method, the path, the raw query and the body bytes get the same canonical
request, the same string-to-sign and the same values of `Authorization`,
`X-Amz-Date` and `X-Amz-Content-Sha256`, whatever their own hosts and inbound
headers are. -/
theorem C14_signing_ignores_unsigned_inputs (p : Plugin) (now : Time) (r₁ r₂ : Request)
    (hMethod : r₁.Method = r₂.Method) (hPath : r₁.Path = r₂.Path)
    (hQuery : r₁.RawQuery = r₂.RawQuery) (hBody : bodyBytes r₁.Body = bodyBytes r₂.Body) :
    (ServeHTTP.locals p now r₁).canonicalRequest = (ServeHTTP.locals p now r₂).canonicalRequest ∧
    (ServeHTTP.locals p now r₁).stringToSign = (ServeHTTP.locals p now r₂).stringToSign ∧
    (ServeHTTP.locals p now r₁).r.Header "Authorization" =
      (ServeHTTP.locals p now r₂).r.Header "Authorization" ∧
    (ServeHTTP.locals p now r₁).r.Header "X-Amz-Date" =
      (ServeHTTP.locals p now r₂).r.Header "X-Amz-Date" ∧
    (ServeHTTP.locals p now r₁).r.Header "X-Amz-Content-Sha256" =
      (ServeHTTP.locals p now r₂).r.Header "X-Amz-Content-Sha256" := by
  obtain ⟨hc, hs, ha⟩ := locals_congr p now r₁ r₂ hMethod hPath hQuery hBody
  refine ⟨hc, hs, ?_, ?_, ?_⟩
  · rw [locals_header, locals_header, ha]; simp
  · rw [locals_header, locals_header]; simp
  · rw [locals_header, locals_header, hBody]; simp

/-- C14, witness: two requests with the same method, path, raw query and body
bytes, one of which has another host, inbound `Authorization` and
`X-Amz-Date` headers and its body in one chunk. -/
theorem C14_signing_ignores_unsigned_inputs_witness :
    (demoReq.Method = otherHostReq.Method ∧ demoReq.Path = otherHostReq.Path ∧
      demoReq.RawQuery = otherHostReq.RawQuery ∧
      bodyBytes demoReq.Body = bodyBytes otherHostReq.Body ∧
      demoReq.Host ≠ otherHostReq.Host ∧
      demoReq.Header "Authorization" ≠ otherHostReq.Header "Authorization") ∧
    (ServeHTTP.locals demoPlugin demoTime demoReq).r.Header "Authorization" =
      (ServeHTTP.locals demoPlugin demoTime otherHostReq).r.Header "Authorization" :=
  ⟨by decide,
   (C14_signing_ignores_unsigned_inputs demoPlugin demoTime demoReq otherHostReq
      rfl rfl rfl rfl).2.2.1⟩

/-- C15: the timestamp of `X-Amz-Date` is the date stamp, `T`, the two-digit
hour, minute and second of the same instant, and `Z`; the date of the
credential scope and the date given to `getSigningKey` are that date stamp,
which is the text before `T` in the signed `X-Amz-Date`. -/
theorem C15_date_stamp_and_timestamp_agree (p : Plugin) (now : Time) (r : Request) :
    amzDateOf now =
      dateStampOf now ++ "T" ++
        String.mk (appendInt now.hour 2 ++ appendInt now.minute 2 ++ appendInt now.second 2) ++
        "Z" ∧
    (ServeHTTP.locals p now r).r.Header "X-Amz-Date" = some [amzDateOf now] ∧
    (ServeHTTP.locals p now r).credentialScope =
      dateStampOf now ++ "/" ++ p.Region ++ "/" ++ p.Service ++ "/aws4_request" ∧
    (ServeHTTP.locals p now r).signingKey =
      getSigningKey p.SecretKey (dateStampOf now) p.Region p.Service ∧
    beforeT (amzDateOf now) = dateStampOf now := by
  refine ⟨?_, ?_, locals_credentialScope p now r, rfl, ?_⟩
  · apply String.ext
    simp [amzDateOf_data, dateStampOf_data, String.data_append]
  · rw [locals_header]; simp
  · apply String.ext
    simp only [beforeT]
    rw [amzDateOf_data, ← dateStampOf_data]
    exact takeWhile_append_stop _ _ 'T' (dateStampOf_no_T now)

/-- C16: `ServeHTTP` is one call of the next handler on the response writer
it was given and on the request with the signing headers set, and its outcome
is the outcome of that call.  A next handler that does nothing leaves a new
recorder with status 200 and an empty body; a next handler that writes one
byte per call leaves exactly one byte more in the body. -/
theorem C16_next_called_once (p : Plugin) (now : Time) (w : ResponseRecorder)
    (r : Request) :
    ServeHTTP p now w r = p.next w (ServeHTTP.locals p now r).r ∧
    (ServeHTTP.locals p now r).r.Header "X-Amz-Date" = some [amzDateOf now] ∧
    (ServeHTTP.locals p now r).r.Header "X-Amz-Content-Sha256" =
      some [hexEncodeToString (Sha256.Sum256 (bodyBytes r.Body))] ∧
    (ServeHTTP.locals p now r).r.Header "Authorization" =
      some [(ServeHTTP.locals p now r).authorization] ∧
    (ServeHTTP { p with next := echoNext } now w r).1 = w ∧
    (ServeHTTP { p with next := echoNext } now NewRecorder r).1.Code = 200 ∧
    (ServeHTTP { p with next := echoNext } now NewRecorder r).1.Body = [] ∧
    (ServeHTTP { p with next := markNext } now w r).1.Body = w.Body ++ [0x2a] := by
  refine ⟨rfl, ?_, ?_, ?_, rfl, rfl, rfl, rfl⟩
  · rw [locals_header]; simp
  · rw [locals_header]; simp
  · rw [locals_header]; simp

/-- C17: for every config, `New` returns no error and a plugin whose
`AccessKey`, `SecretKey`, `SessionToken`, `Service`, `Endpoint` and `Region`
are the config's and whose next handler and name are the ones given; a config
of empty fields is accepted like any other. -/
theorem C17_New_accepts_every_config (next : Handler) (config : Config) (name : String) :
    (New next config name).2 = none ∧
    (New next config name).1.AccessKey = config.AccessKey ∧
    (New next config name).1.SecretKey = config.SecretKey ∧
    (New next config name).1.SessionToken = config.SessionToken ∧
    (New next config name).1.Service = config.Service ∧
    (New next config name).1.Endpoint = config.Endpoint ∧
    (New next config name).1.Region = config.Region ∧
    (New next config name).1.next = next ∧
    (New next config name).1.name = name ∧
    (New next ⟨"", "", none, "", "", ""⟩ name).2 = none :=
  ⟨rfl, rfl, rfl, rfl, rfl, rfl, rfl, rfl, rfl, rfl⟩

/-- C18: the signature embedded in `Authorization` is 64 characters, each one
of `0` to `9` or `a` to `f`, and so is the value of `X-Amz-Content-Sha256`. -/
theorem C18_signature_and_hash_are_lower_hex (p : Plugin) (now : Time) (r : Request) :
    IsLowerHex 64 (ServeHTTP.locals p now r).signature ∧
    (ServeHTTP.locals p now r).r.Header "Authorization" =
      some ["AWS4-HMAC-SHA256 Credential=" ++ p.AccessKey ++ "/" ++
        (ServeHTTP.locals p now r).credentialScope ++ ", SignedHeaders=" ++
        (ServeHTTP.locals p now r).signedHeaders ++ ", Signature=" ++
        (ServeHTTP.locals p now r).signature] ∧
    (ServeHTTP.locals p now r).r.Header "X-Amz-Content-Sha256" =
      some [hexEncodeToString (Sha256.Sum256 (bodyBytes r.Body))] ∧
    IsLowerHex 64 (hexEncodeToString (Sha256.Sum256 (bodyBytes r.Body))) := by
  refine ⟨?_, ?_, ?_, ?_⟩
  · rw [locals_signature]
    have h := hexEncodeToString_isLowerHex
      (hmacSum (getSigningKey p.SecretKey (dateStampOf now) p.Region p.Service)
        (bytesOf (ServeHTTP.locals p now r).stringToSign))
    rwa [length_hmacSum] at h
  · rw [locals_header, locals_authorization]
    simp only [if_true]
    have : "AWS4-HMAC-SHA256" ++ " Credential=" = "AWS4-HMAC-SHA256 Credential=" := by decide
    rw [this]
  · rw [locals_header]; simp
  · have h := hexEncodeToString_isLowerHex (Sha256.Sum256 (bodyBytes r.Body))
    rwa [Sha256.length_Sum256] at h

/-- C19: with the clock frozen and one config, signing a request that was
already signed gives the same header map and the same body bytes as signing
it once. -/
theorem C19_signing_is_idempotent (p : Plugin) (now : Time) (r : Request) :
    (ServeHTTP.locals p now (ServeHTTP.locals p now r).r).r.Header =
      (ServeHTTP.locals p now r).r.Header ∧
    bodyBytes (ServeHTTP.locals p now (ServeHTTP.locals p now r).r).r.Body =
      bodyBytes (ServeHTTP.locals p now r).r.Body ∧
    bodyBytes (ServeHTTP.locals p now r).r.Body = bodyBytes r.Body := by
  have hf := locals_frame p now r
  have hb := bodyBytes_locals p now r
  obtain ⟨_, _, ha⟩ := locals_congr p now (ServeHTTP.locals p now r).r r hf.1 hf.2.2.1
    hf.2.2.2 hb
  refine ⟨?_, bodyBytes_locals p now _, hb⟩
  funext k
  rw [locals_header p now (ServeHTTP.locals p now r).r, ha, hb, locals_header p now r]
  cases p.SessionToken <;> simp only [] <;> split_ifs <;> rfl

end SigV4
